import Mathlib

/-!
Verification of the upstream selection and health-tracking core of rspamd
(src/libutil/upstream.c) against its natural-language specification.

The C code is shallowly embedded: machine integers are modelled as `Nat`
with explicit `% 2 ^ w` where overflow is semantically reachable, `gdouble`
quantities (times, rates) as `ℚ`, GLib pointer arrays as Lean lists, and the
pointer identity of an upstream as its index into the owning list's `ups`
sequence.  External collaborators (the event loop, the DNS resolver, the
RNG, the hash library) are modelled as oracle parameters or log events, as
noted on each definition.
-/

set_option maxHeartbeats 1000000

/-! ## Consistent hashing (rspamd_consistent_hash, upstream.c:1125-1137) -/

/-- Loop body of `rspamd_consistent_hash` (upstream.c:1128-1135).  State is
`(key, b, j)` with `key : guint64` (a `Nat` reduced mod `2 ^ 64`), `b j :
gint64` (`Int`).  The C statement `key *= 2862933555777941757ULL + 1;`
multiplies `key` by the compile-time constant `2862933555777941757 + 1` (C
operator precedence), and
`j = (b + 1) * (double)(1ULL << 31) / (double)((key >> 33) + 1ULL);`
is modelled as exact integer floor division; the double rounding of the C
expression agrees with it on the concrete inputs evaluated here.  The loop
terminates because `j` strictly increases (proved below); `fuel` is an upper
bound on the remaining iterations, consumed one per iteration. -/
def rspamd_consistent_hash_loop (nbuckets : Nat) : Nat → Nat → Int → Int → Int
  | 0, _, b, _ => b
  | fuel + 1, key, b, j =>
    if j < (nbuckets : Int) then
      let b' := j
      let key' := key * (2862933555777941757 + 1) % 2 ^ 64
      let j' : Int := (((b' + 1).toNat * 2 ^ 31 / (key' >>> 33 + 1) : Nat) : Int)
      rspamd_consistent_hash_loop nbuckets fuel key' b' j'
    else b

/-- Embedding of `rspamd_consistent_hash` (upstream.c:1125-1137): `b = -1`,
`j = 0`, run the loop, return `b` cast to `guint32` (mod `2 ^ 32`; the cast
of `-1` yields `2 ^ 32 - 1`).  Since `j` strictly increases each iteration
and the loop runs only while `j < nbuckets`, `nbuckets + 1` units of fuel
are never exhausted. -/
def rspamd_consistent_hash (key : Nat) (nbuckets : Nat) : Nat :=
  ((rspamd_consistent_hash_loop nbuckets (nbuckets + 1) key (-1) 0) % 2 ^ 32).toNat

/-- Jump-hash loop as the claim C4 words it: the key is updated as the LCG
`key ← key * 2862933555777941757 + 1 (mod 2 ^ 64)` — which is NOT what the
C code computes (it multiplies by `2862933555777941757 + 1` and adds
nothing). -/
def consistent_hash_claimed_loop (nbuckets : Nat) : Nat → Nat → Int → Int → Int
  | 0, _, b, _ => b
  | fuel + 1, key, b, j =>
    if j < (nbuckets : Int) then
      let b' := j
      let key' := (key * 2862933555777941757 + 1) % 2 ^ 64
      let j' : Int := (((b' + 1).toNat * 2 ^ 31 / (key' >>> 33 + 1) : Nat) : Int)
      consistent_hash_claimed_loop nbuckets fuel key' b' j'
    else b

/-- Version of the consistent hash with the LCG update claimed by C4. -/
def consistent_hash_claimed (key : Nat) (nbuckets : Nat) : Nat :=
  ((consistent_hash_claimed_loop nbuckets (nbuckets + 1) key (-1) 0) % 2 ^ 32).toNat

/-- Amended description of the loop, restructured with `Nat` state: after the
first iteration (which sets `b = 0`), each round multiplies the key by
`2862933555777941758 = 2862933555777941757 + 1` mod `2 ^ 64`, computes
`j = ⌊(b + 1)·2^31 / ((key >> 33) + 1)⌋`, and continues with `b := j` while
`j < nbuckets`. -/
def jump_amended_go (nbuckets : Nat) : Nat → Nat → Nat → Nat
  | 0, _, b => b
  | fuel + 1, key, b =>
    let key' := key * 2862933555777941758 % 2 ^ 64
    let j := (b + 1) * 2 ^ 31 / (key' >>> 33 + 1)
    if j < nbuckets then jump_amended_go nbuckets fuel key' j else b

/-- Consistent hash as amended: for `nbuckets = 0` the loop never runs and
the returned `b = -1` truncates to `2 ^ 32 - 1`; otherwise the last `b` of
the loop (truncated to `uint32`) is the bucket. -/
def jump_amended (key : Nat) (nbuckets : Nat) : Nat :=
  if nbuckets = 0 then 2 ^ 32 - 1 else jump_amended_go nbuckets nbuckets key 0 % 2 ^ 32

/-- Division by a divisor bounded by `2 ^ 31` cannot shrink `m * 2 ^ 31`
below `m`; this is why `j` strictly increases in the jump loop. -/
theorem jump_div_ge (m d : Nat) (hd : 0 < d) (hd2 : d ≤ 2 ^ 31) :
    m ≤ m * 2 ^ 31 / d := by
  rw [Nat.le_div_iff_mul_le hd]
  exact Nat.mul_le_mul_left m hd2

/-- Unfolding equation for one iteration of the embedded jump loop. -/
theorem rspamd_consistent_hash_loop_succ (n fuel : Nat) (key : Nat) (b j : Int) :
    rspamd_consistent_hash_loop n (fuel + 1) key b j =
      if j < (n : Int) then
        rspamd_consistent_hash_loop n fuel (key * (2862933555777941757 + 1) % 2 ^ 64) j
          ((((j + 1).toNat * 2 ^ 31 /
            ((key * (2862933555777941757 + 1) % 2 ^ 64) >>> 33 + 1) : Nat)) : Int)
      else b := rfl

/-- Alignment of the C loop with the amended-claim loop: with enough fuel on
both sides they compute the same bucket. -/
theorem consistent_hash_loop_eq_amended (n : Nat) :
    ∀ (F : Nat) (key j : Nat) (b : Int), j < n → n ≤ F + j →
      rspamd_consistent_hash_loop n (F + 1) key b (j : Int) =
        ((jump_amended_go n F key j : Nat) : Int) := by
  intro F
  induction F with
  | zero =>
    intro key j b hj _
    simp only [rspamd_consistent_hash_loop, jump_amended_go]
    rw [if_pos (by exact_mod_cast hj)]
  | succ F ih =>
    intro key j b hj hn
    simp only [rspamd_consistent_hash_loop, jump_amended_go]
    rw [if_pos (by exact_mod_cast hj)]
    have hkey : key * (2862933555777941757 + 1) % 2 ^ 64 =
        key * 2862933555777941758 % 2 ^ 64 := by norm_num
    set key' := key * 2862933555777941758 % 2 ^ 64 with hkeyd
    have htn : ((j : Int) + 1).toNat = j + 1 := by
      rw [show ((j : Int) + 1) = ((j + 1 : Nat) : Int) by push_cast; ring]
      exact Int.toNat_natCast _
    set j' := (j + 1) * 2 ^ 31 / (key' >>> 33 + 1) with hj'd
    have hstep : j + 1 ≤ j' := by
      have hdpos : 0 < key' >>> 33 + 1 := Nat.succ_pos _
      have hdle : key' >>> 33 + 1 ≤ 2 ^ 31 := by
        have hk64 : key' < 2 ^ 64 := Nat.mod_lt _ (by norm_num)
        have : key' >>> 33 < 2 ^ 31 := by
          rw [Nat.shiftRight_eq_div_pow]
          exact Nat.div_lt_of_lt_mul (by norm_num at hk64 ⊢; omega)
        omega
      exact jump_div_ge (j + 1) _ hdpos hdle
    rw [hkey, htn]
    by_cases hlt : j' < n
    · rw [if_pos hlt]
      have := ih key' j' (j : Int) hlt (by omega)
      simpa [hj'd] using this
    · rw [if_neg hlt]
      rw [hj'd] at hlt
      rw [if_neg (show ¬(((((j + 1) * 2 ^ 31 / (key' >>> 33 + 1)) : Nat) : Int) < (n : Int)) from
        by exact_mod_cast hlt)]

/-- The embedded C hash agrees with the amended jump-hash description for
every key and bucket count. -/
theorem consistent_hash_eq_jump (key nbuckets : Nat) :
    rspamd_consistent_hash key nbuckets = jump_amended key nbuckets := by
  by_cases hn : nbuckets = 0
  · subst hn
    rfl
  · have h1 : 1 ≤ nbuckets := Nat.one_le_iff_ne_zero.mpr hn
    unfold rspamd_consistent_hash jump_amended
    rw [if_neg hn]
    have := consistent_hash_loop_eq_amended nbuckets nbuckets key 0 (-1)
      (by omega) (by omega)
    rw [show ((0 : Nat) : Int) = (0 : Int) by norm_num] at this
    rw [this]
    rw [show ((jump_amended_go nbuckets nbuckets key 0 : Nat) : Int) % 2 ^ 32 =
      ((jump_amended_go nbuckets nbuckets key 0 % 2 ^ 32 : Nat) : Int) by push_cast; ring_nf]
    exact Int.toNat_natCast _

/-- Claim C4 (amended): the jump loop multiplies the key by
`2862933555777941758` — i.e. by `2862933555777941757 + 1`, per C operator
precedence in `key *= 2862933555777941757ULL + 1;` — with no separate `+ 1`,
computes `j = ⌊(b+1)·2^31 / ((key >> 33) + 1)⌋`, sets `b` to `j` while
`j < nbuckets`, and returns the last `b` truncated to `uint32`. -/
theorem c4_amended (key nbuckets : Nat) :
    rspamd_consistent_hash key nbuckets = jump_amended key nbuckets :=
  consistent_hash_eq_jump key nbuckets

/-- Claim C4 is false as stated: with the LCG update it claims
(`key ← key × 2862933555777941757 + 1`), key `2` and `100` buckets hash to
bucket `62`, whereas the code (which multiplies by `2862933555777941758`)
yields bucket `66`. -/
theorem c4_counterexample :
    consistent_hash_claimed 2 100 = 62 ∧ rspamd_consistent_hash 2 100 = 66 ∧
      consistent_hash_claimed 2 100 ≠ rspamd_consistent_hash 2 100 := by
  refine ⟨by decide, by decide, by decide⟩

/-- Bucket returned by the amended loop stays below `nbuckets`. -/
theorem jump_amended_go_lt (n : Nat) :
    ∀ (F key b : Nat), b < n → jump_amended_go n F key b < n := by
  intro F
  induction F with
  | zero => intro key b hb; simpa [jump_amended_go] using hb
  | succ F ih =>
    intro key b hb
    simp only [jump_amended_go]
    split
    next h => exact ih _ _ h
    next h => exact hb

/-- Bucket index returned by the embedded consistent hash is in range for a
positive bucket count. -/
theorem rspamd_consistent_hash_lt (key n : Nat) (hn : 0 < n) :
    rspamd_consistent_hash key n < n := by
  rw [consistent_hash_eq_jump, jump_amended]
  rw [if_neg (by omega)]
  calc jump_amended_go n n key 0 % 2 ^ 32 ≤ jump_amended_go n n key 0 := Nat.mod_le _ _
    _ < n := jump_amended_go_lt n n key 0 hn

/-! ## Library configuration (rspamd_upstreams_library_config, upstream.c:134-161) -/

/-- Limits record, `struct upstream_limits` (upstream.c:74-82).  `gdouble`
fields are `ℚ`, `guint` fields are `Nat`. -/
structure Limits where
  revive_time : ℚ
  revive_jitter : ℚ
  error_time : ℚ
  dns_timeout : ℚ
  lazy_resolve_time : ℚ
  max_errors : Nat
  dns_retransmits : Nat
  deriving Repr, DecidableEq

/-- Default limits (upstream.c:122-130). -/
def defaultLimits : Limits :=
  { revive_time := 60, revive_jitter := 2 / 5, error_time := 10,
    dns_timeout := 1, lazy_resolve_time := 3600, max_errors := 4,
    dns_retransmits := 2 }

/-- Modelled from the spec: the fields of `struct rspamd_config`
(cfg_file.h, outside this tree) that `rspamd_upstreams_library_config`
reads.  Times are `gdouble` (`ℚ`), counts are `guint` (`Nat`); C truthiness
`if (cfg->field)` is `≠ 0`. -/
structure RspamdConfig where
  upstream_error_time : ℚ
  upstream_max_errors : Nat
  upstream_revive_time : ℚ
  upstream_lazy_resolve_time : ℚ
  dns_retransmits : Nat
  dns_timeout : ℚ
  deriving Repr, DecidableEq

/-- Embedding of the limit-updating part of `rspamd_upstreams_library_config`
(upstream.c:143-160): each nonzero config field overwrites the corresponding
context limit — except that a nonzero `upstream_revive_time` overwrites
`revive_time` with `cfg->upstream_max_errors` (the source reads the wrong
field on line 150). -/
def rspamd_upstreams_library_config (cfg : RspamdConfig) (l : Limits) : Limits :=
  let l := if cfg.upstream_error_time ≠ 0 then { l with error_time := cfg.upstream_error_time } else l
  let l := if cfg.upstream_max_errors ≠ 0 then { l with max_errors := cfg.upstream_max_errors } else l
  let l := if cfg.upstream_revive_time ≠ 0 then { l with revive_time := (cfg.upstream_max_errors : ℚ) } else l
  let l := if cfg.upstream_lazy_resolve_time ≠ 0 then { l with lazy_resolve_time := cfg.upstream_lazy_resolve_time } else l
  let l := if cfg.dns_retransmits ≠ 0 then { l with dns_retransmits := cfg.dns_retransmits } else l
  let l := if cfg.dns_timeout ≠ 0 then { l with dns_timeout := cfg.dns_timeout } else l
  l

/-- Claim C9: whenever the config's `upstream_revive_time` is nonzero, the
configured `revive_time` limit is assigned from `cfg->upstream_max_errors`,
not from the revive-time config field. -/
theorem c9_library_config_revive_time (cfg : RspamdConfig) (l : Limits)
    (h : cfg.upstream_revive_time ≠ 0) :
    (rspamd_upstreams_library_config cfg l).revive_time = (cfg.upstream_max_errors : ℚ) ∧
    ((cfg.upstream_max_errors : ℚ) ≠ cfg.upstream_revive_time →
      (rspamd_upstreams_library_config cfg l).revive_time ≠ cfg.upstream_revive_time) := by
  have h1 : (rspamd_upstreams_library_config cfg l).revive_time = (cfg.upstream_max_errors : ℚ) := by
    simp [rspamd_upstreams_library_config, apply_ite Limits.revive_time, h]
  exact ⟨h1, fun hne => by rw [h1]; exact hne⟩

/-- Witness for C9 at a concrete configuration: revive time 7 requested,
max errors 9, so the resulting revive time is 9, not 7. -/
theorem c9_witness :
    (rspamd_upstreams_library_config ⟨0, 9, 7, 0, 0, 0⟩ defaultLimits).revive_time = (9 : ℚ) ∧
    (rspamd_upstreams_library_config ⟨0, 9, 7, 0, 0, 0⟩ defaultLimits).revive_time ≠ (7 : ℚ) := by
  have h := c9_library_config_revive_time ⟨0, 9, 7, 0, 0, 0⟩ defaultLimits (by norm_num)
  refine ⟨by simpa using h.1, by simpa using h.2 (by norm_num)⟩

/-! ## Addresses (struct upstream_addr_elt, upstream.c:33-36) -/

/-- Address family of an `rspamd_inet_addr_t`; only the three families the
weighting function distinguishes matter here. -/
inductive AddrFamily
  | unix | inet | inet6
  deriving Repr, DecidableEq

/-- Modelled from the spec: an `rspamd_inet_addr_t` (inet-address library,
outside this tree) is a socket address carrying a family, raw address bytes
(collapsed to a `Nat`) and a port.  Byte-equality ignoring ports compares
family and bytes only. -/
structure InetAddr where
  af : AddrFamily
  bytes : Nat
  port : Nat
  deriving Repr, DecidableEq

/-- Embedding of `struct upstream_addr_elt` (upstream.c:33-36): an address
with its error counter. -/
structure AddrElt where
  addr : InetAddr
  errors : Nat
  deriving Repr, DecidableEq

/-- Default element used for out-of-range `getD` lookups (C would fault;
the claims below only index in bounds). -/
def defaultAddrElt : AddrElt := ⟨⟨AddrFamily.inet, 0, 0⟩, 0⟩

/-- Embedding of `rspamd_upstream_af_to_weight` (upstream.c:238-256):
UNIX-domain addresses weigh 2, IPv4 weighs 1, anything else 0. -/
def rspamd_upstream_af_to_weight (a : InetAddr) : Int :=
  match a.af with
  | AddrFamily.unix => 2
  | AddrFamily.inet => 1
  | AddrFamily.inet6 => 0

/-- Order imposed by `rspamd_upstream_addr_sort_func` (upstream.c:261-272):
the comparator returns `w2 - w1`, so an ascending qsort places higher
family weights first. -/
def addrSortRel (a b : AddrElt) : Prop :=
  rspamd_upstream_af_to_weight b.addr ≤ rspamd_upstream_af_to_weight a.addr

instance : DecidableRel addrSortRel := fun x y =>
  inferInstanceAs (Decidable
    (rspamd_upstream_af_to_weight y.addr ≤ rspamd_upstream_af_to_weight x.addr))

instance : IsTotal AddrElt addrSortRel :=
  ⟨fun a b => le_total (rspamd_upstream_af_to_weight b.addr) (rspamd_upstream_af_to_weight a.addr)⟩

instance : IsTrans AddrElt addrSortRel :=
  ⟨fun _ _ _ hab hbc => le_trans hbc hab⟩

/-- Model of `g_ptr_array_sort (addrs, rspamd_upstream_addr_sort_func)`:
qsort produces some permutation ordered by the comparator; we model it with
insertion sort, which is such a permutation. -/
def sortAddrs (l : List AddrElt) : List AddrElt :=
  l.insertionSort addrSortRel

/-- Embedding of `rspamd_inet_address_compare (a, b, FALSE)` being zero:
byte equality ignoring the port. -/
def inetAddrEqNoPort (a b : InetAddr) : Bool :=
  a.af == b.af && a.bytes == b.bytes

/-! ## Upstream and list state -/

/-- Timer state of the single `ev_timer` embedded in an upstream: a started
timer is either the lazy-resolve timer or the revive timer (spec invariant
4); `none` models a stopped timer. -/
inductive TimerKind
  | lazy | revive
  deriving Repr, DecidableEq

/-- Embedding of `struct upstream` (upstream.c:46-72).  `guint` counters are
`Nat`, `active_idx : gint` is `Int` (`-1` = not alive), `last_fail :
gdouble` is `ℚ`.  The `addrs` pointer array with its cursor and the
`new_addrs` staging list are inlined; name, uid, locks, refcounts and the
context backpointer carry no behaviour at this level (the presence of a
configured context lives on the list state below). -/
structure Upstream where
  weight : Nat
  cur_weight : Nat
  errors : Nat
  checked : Nat
  active_idx : Int
  last_fail : ℚ
  noresolve : Bool
  timer : Option TimerKind
  addrs : List AddrElt
  cur : Nat
  new_addrs : List InetAddr
  deriving Repr, DecidableEq

/-- Zero-initialised upstream (`g_malloc0`), used as `getD` default. -/
def defaultUpstream : Upstream :=
  ⟨0, 0, 0, 0, 0, 0, false, none, [], 0, []⟩

/-! ## Address reconciliation (rspamd_upstream_update_addrs, upstream.c:312-396) -/

/-- Embedding of `rspamd_upstream_update_addrs` (upstream.c:312-396).  When
both the current address array and the staging list are non-empty: preserve
the port of the first current address, build the new array from the staged
addresses in order — each gets the preserved port, and carries over the
error count of a byte-equal (ignoring port) current address if one exists
(reset to 0 when `reset_errors`, which the C sets with probability 10% from
the external RNG; modelled as a parameter), else 0 — then reset the cursor
and sort by family weight.  The staging list is emptied in every case. -/
def rspamd_upstream_update_addrs (u : Upstream) (reset_errors : Bool) : Upstream :=
  if u.addrs.length > 0 ∧ u.new_addrs ≠ [] then
    let port := (u.addrs.headD defaultAddrElt).addr.port
    let newList := u.new_addrs.map (fun a =>
      let a' : InetAddr := { a with port := port }
      match u.addrs.find? (fun e => inetAddrEqNoPort e.addr a') with
      | some e => { addr := a', errors := if reset_errors then 0 else e.errors : AddrElt }
      | none => { addr := a', errors := 0 : AddrElt })
    { u with addrs := sortAddrs newList, cur := 0, new_addrs := [] }
  else
    { u with new_addrs := [] }

/-- Claim C7: after reconciliation with non-empty staged list and non-empty
current address set, the new address sequence is exactly the staged
addresses (as a set), each carrying the port of the first previous address;
a staged address byte-equal (ignoring port) to a previous one carries that
address's error count (0 under `reset_errors`), an unseen one gets errors
0; the cursor is reset to 0 and the sequence is sorted by family preference
(UNIX before IPv4 before IPv6). -/
theorem c7_reconciliation (u : Upstream) (reset_errors : Bool)
    (h1 : u.addrs ≠ []) (h2 : u.new_addrs ≠ []) :
    (rspamd_upstream_update_addrs u reset_errors).cur = 0 ∧
    ((rspamd_upstream_update_addrs u reset_errors).addrs).Perm
      (u.new_addrs.map (fun a =>
        let a' : InetAddr := ⟨a.af, a.bytes, (u.addrs.headD defaultAddrElt).addr.port⟩
        match u.addrs.find? (fun e => inetAddrEqNoPort e.addr a') with
        | some e => ({ addr := a', errors := if reset_errors then 0 else e.errors } : AddrElt)
        | none => ({ addr := a', errors := 0 } : AddrElt))) ∧
    (∀ e ∈ (rspamd_upstream_update_addrs u reset_errors).addrs,
      e.addr.port = (u.addrs.headD defaultAddrElt).addr.port) ∧
    List.Sorted addrSortRel (rspamd_upstream_update_addrs u reset_errors).addrs := by
  have hcond : u.addrs.length > 0 ∧ u.new_addrs ≠ [] :=
    ⟨List.length_pos.mpr h1, h2⟩
  unfold rspamd_upstream_update_addrs
  rw [if_pos hcond]
  refine ⟨rfl, ?_, ?_, ?_⟩
  · exact (List.perm_insertionSort addrSortRel _).trans (by rfl)
  · intro e he
    have he2 := (List.perm_insertionSort addrSortRel _).mem_iff.mp he
    rcases List.mem_map.mp he2 with ⟨a, _, hmap⟩
    cases hfind : u.addrs.find? (fun e => inetAddrEqNoPort e.addr
        ⟨a.af, a.bytes, (u.addrs.headD defaultAddrElt).addr.port⟩) with
    | none => simp only [hfind] at hmap; rw [← hmap]
    | some w => simp only [hfind] at hmap; rw [← hmap]
  · exact List.sorted_insertionSort addrSortRel _

/-- Witness for C7 matching spec scenario 6: previous addresses
`1.1.1.1:25 (err 3)`, `2.2.2.2:25 (err 0)` staged `2.2.2.2`, `3.3.3.3` with
`reset_errors = false`; result keeps exactly the staged addresses with port
25 and errors 0, cursor 0, sorted. -/
theorem c7_witness :
    (rspamd_upstream_update_addrs
      { defaultUpstream with
          addrs := [⟨⟨AddrFamily.inet, 0x01010101, 25⟩, 3⟩, ⟨⟨AddrFamily.inet, 0x02020202, 25⟩, 0⟩],
          new_addrs := [⟨AddrFamily.inet, 0x02020202, 0⟩, ⟨AddrFamily.inet, 0x03030303, 0⟩] }
      false).addrs =
      [⟨⟨AddrFamily.inet, 0x02020202, 25⟩, 0⟩, ⟨⟨AddrFamily.inet, 0x03030303, 25⟩, 0⟩] ∧
    (rspamd_upstream_update_addrs
      { defaultUpstream with
          addrs := [⟨⟨AddrFamily.inet, 0x01010101, 25⟩, 3⟩, ⟨⟨AddrFamily.inet, 0x02020202, 25⟩, 0⟩],
          new_addrs := [⟨AddrFamily.inet, 0x02020202, 0⟩, ⟨AddrFamily.inet, 0x03030303, 0⟩] }
      false).cur = 0 ∧
    List.Sorted addrSortRel (rspamd_upstream_update_addrs
      { defaultUpstream with
          addrs := [⟨⟨AddrFamily.inet, 0x01010101, 25⟩, 3⟩, ⟨⟨AddrFamily.inet, 0x02020202, 25⟩, 0⟩],
          new_addrs := [⟨AddrFamily.inet, 0x02020202, 0⟩, ⟨AddrFamily.inet, 0x03030303, 0⟩] }
      false).addrs :=
  ⟨by decide,
   (c7_reconciliation
     { defaultUpstream with
         addrs := [⟨⟨AddrFamily.inet, 0x01010101, 25⟩, 3⟩, ⟨⟨AddrFamily.inet, 0x02020202, 25⟩, 0⟩],
         new_addrs := [⟨AddrFamily.inet, 0x02020202, 0⟩, ⟨AddrFamily.inet, 0x03030303, 0⟩] }
     false (by decide) (by decide)).1,
   (c7_reconciliation
     { defaultUpstream with
         addrs := [⟨⟨AddrFamily.inet, 0x01010101, 25⟩, 3⟩, ⟨⟨AddrFamily.inet, 0x02020202, 25⟩, 0⟩],
         new_addrs := [⟨AddrFamily.inet, 0x02020202, 0⟩, ⟨AddrFamily.inet, 0x03030303, 0⟩] }
     false (by decide) (by decide)).2.2.2⟩

/-! ## Address rotation (rspamd_upstream_addr_next, upstream.c:736-751) -/

/-- Skip loop of `rspamd_upstream_addr_next` (upstream.c:742-748) over the
error counters of the address array: starting at `cur`, step to
`(cur + 1) % len` and keep stepping while the next slot has strictly more
errors than the current one; the returned index is the final cursor.  The C
do/while has no fuel — claim C10 is that `len` steps always suffice, proved
below. -/
def addrNextAux (errs : List Nat) (cur : Nat) : Nat → Option Nat
  | 0 => none
  | fuel + 1 =>
    let next := (cur + 1) % errs.length
    if errs.getD next 0 > errs.getD cur 0 then addrNextAux errs next fuel
    else some next

/-- Embedding of `rspamd_upstream_addr_next` (upstream.c:736-751): run the
skip loop, store the final index as the new cursor and return that
element's address. -/
def rspamd_upstream_addr_next (u : Upstream) (fuel : Nat) : Option (InetAddr × Upstream) :=
  match addrNextAux (u.addrs.map AddrElt.errors) u.cur fuel with
  | some r => some ((u.addrs.getD r defaultAddrElt).addr, { u with cur := r })
  | none => none

/-- Ascending chain of length `k` in the cyclic error sequence starting at
`c`: every consecutive pair (mod `len`) strictly increases. -/
def AscChain (errs : List Nat) (c k : Nat) : Prop :=
  ∀ i < k, errs.getD ((c + i) % errs.length) 0 < errs.getD ((c + i + 1) % errs.length) 0

/-- Walking an ascending chain of length `k` gains at least `k` in the error
value. -/
theorem ascChain_growth (errs : List Nat) (c k : Nat)
    (h : AscChain errs c k) :
    errs.getD (c % errs.length) 0 + k ≤ errs.getD ((c + k) % errs.length) 0 := by
  induction k with
  | zero => simp
  | succ k ih =>
    have hk : AscChain errs c k := fun i hi => h i (by omega)
    have h1 := ih hk
    have h2 := h k (by omega)
    have e : c + (k + 1) = c + k + 1 := by ring
    rw [e]
    omega

/-- No ascending chain wraps the whole cycle: error counts cannot strictly
increase around the entire address ring. -/
theorem no_full_ascChain (errs : List Nat) (hne : errs ≠ []) (c : Nat) :
    ¬ AscChain errs c errs.length := by
  intro h
  have hgrow := ascChain_growth errs c errs.length h
  rw [Nat.add_mod_right] at hgrow
  have : 0 < errs.length := List.length_pos.mpr hne
  omega

/-- Fuel adequacy for the skip loop: starting from an in-range cursor, if no
ascending chain of length `fuel` starts there, the loop stops within `fuel`
steps at an in-range index. -/
theorem addrNextAux_some (errs : List Nat) (hne : errs ≠ []) :
    ∀ (fuel c : Nat), c < errs.length → ¬ AscChain errs c fuel →
      ∃ r, addrNextAux errs c fuel = some r ∧ r < errs.length := by
  have hlen : 0 < errs.length := List.length_pos.mpr hne
  intro fuel
  induction fuel with
  | zero =>
    intro c _ hch
    exact absurd (fun i hi => absurd hi (by omega)) hch
  | succ fuel ih =>
    intro c hc hch
    simp only [addrNextAux]
    by_cases hstep : errs.getD ((c + 1) % errs.length) 0 > errs.getD c 0
    · have hch2 : ¬ AscChain errs ((c + 1) % errs.length) fuel := by
        intro h2
        apply hch
        intro i hi
        cases i with
        | zero =>
          have hc0 : (c + 0) % errs.length = c := by
            rw [Nat.add_zero, Nat.mod_eq_of_lt hc]
          rw [hc0]
          simpa using hstep
        | succ i =>
          have h3 := h2 i (by omega)
          have e1 : ((c + 1) % errs.length + i) % errs.length =
              (c + (i + 1)) % errs.length := by
            rw [Nat.mod_add_mod]
            congr 1
            ring
          have e2 : ((c + 1) % errs.length + i + 1) % errs.length =
              (c + (i + 1) + 1) % errs.length := by
            rw [show (c + 1) % errs.length + i + 1 =
              (c + 1) % errs.length + (i + 1) by ring, Nat.mod_add_mod]
            congr 1
            ring
          rw [e1, e2] at h3
          exact h3
      rcases ih ((c + 1) % errs.length) (Nat.mod_lt _ hlen) hch2 with ⟨r, hr, hrlt⟩
      refine ⟨r, ?_, hrlt⟩
      rw [if_pos hstep]
      exact hr
    · refine ⟨(c + 1) % errs.length, ?_, Nat.mod_lt _ hlen⟩
      rw [if_neg hstep]

/-- Claim C10: for a non-empty address array and in-range cursor, the
AddrNext skip loop terminates within at most `len` steps — per-address
error counts cannot strictly increase around the whole cycle — returning an
address and leaving the cursor in `[0, len)`. -/
theorem c10_addr_next_terminates (u : Upstream)
    (h1 : u.addrs ≠ []) (h2 : u.cur < u.addrs.length) :
    ∃ r, addrNextAux (u.addrs.map AddrElt.errors) u.cur u.addrs.length = some r ∧
      r < u.addrs.length ∧
      rspamd_upstream_addr_next u u.addrs.length =
        some ((u.addrs.getD r defaultAddrElt).addr, { u with cur := r }) := by
  have hmapne : u.addrs.map AddrElt.errors ≠ [] := by simpa using h1
  have hlen : (u.addrs.map AddrElt.errors).length = u.addrs.length :=
    List.length_map _ _
  have hchain := no_full_ascChain (u.addrs.map AddrElt.errors) hmapne u.cur
  rw [hlen] at hchain
  rcases addrNextAux_some (u.addrs.map AddrElt.errors) hmapne u.addrs.length u.cur
    (by rw [hlen]; exact h2) hchain with ⟨r, hr, hrlt⟩
  rw [hlen] at hrlt
  refine ⟨r, hr, hrlt, ?_⟩
  simp only [rspamd_upstream_addr_next, hr]

/-- Witness for C10 on the spec's AddrNext law: errors `[0, 5, 0]`,
cursor 0; the loop terminates (skipping the errored slot, landing on
index 2). -/
theorem c10_witness :
    (({ defaultUpstream with
        addrs := [⟨⟨AddrFamily.inet, 1, 25⟩, 0⟩, ⟨⟨AddrFamily.inet, 2, 25⟩, 5⟩,
                  ⟨⟨AddrFamily.inet, 3, 25⟩, 0⟩] } : Upstream).addrs ≠ []) ∧
    ∃ r, addrNextAux (({ defaultUpstream with
        addrs := [⟨⟨AddrFamily.inet, 1, 25⟩, 0⟩, ⟨⟨AddrFamily.inet, 2, 25⟩, 5⟩,
                  ⟨⟨AddrFamily.inet, 3, 25⟩, 0⟩] } : Upstream).addrs.map AddrElt.errors)
        0 3 = some r ∧ r < 3 ∧
      rspamd_upstream_addr_next ({ defaultUpstream with
        addrs := [⟨⟨AddrFamily.inet, 1, 25⟩, 0⟩, ⟨⟨AddrFamily.inet, 2, 25⟩, 5⟩,
                  ⟨⟨AddrFamily.inet, 3, 25⟩, 0⟩] } : Upstream) 3 =
        some ((({ defaultUpstream with
        addrs := [⟨⟨AddrFamily.inet, 1, 25⟩, 0⟩, ⟨⟨AddrFamily.inet, 2, 25⟩, 5⟩,
                  ⟨⟨AddrFamily.inet, 3, 25⟩, 0⟩] } : Upstream).addrs.getD r
            defaultAddrElt).addr,
          { ({ defaultUpstream with
        addrs := [⟨⟨AddrFamily.inet, 1, 25⟩, 0⟩, ⟨⟨AddrFamily.inet, 2, 25⟩, 5⟩,
                  ⟨⟨AddrFamily.inet, 3, 25⟩, 0⟩] } : Upstream) with cur := r }) :=
  ⟨by decide, c10_addr_next_terminates _ (by decide) (by decide)⟩

/-! ## Upstream list state (struct upstream_list, upstream.c:84-95) -/

/-- Rotation algorithms, `enum rspamd_upstream_rotation` (upstream.h). -/
inductive Rotation
  | undef | random | hashed | round_robin | master_slave | sequential
  deriving Repr, DecidableEq

/-- Watch events, `enum rspamd_upstreams_watch_event` (upstream.h). -/
inductive WEvent
  | online | offline | failure | success
  deriving Repr, DecidableEq

/-- Watcher registration, `struct upstream_list_watcher` (upstream.c:38-44):
the events mask kept as one flag per event; the C callback pointer and
userdata carry no behaviour here — what the claims observe is which events
fire with which counts, recorded in the log below. -/
structure Watcher where
  won : Bool
  woff : Bool
  wfail : Bool
  wsucc : Bool
  deriving Repr, DecidableEq

/-- Mask test for a watcher against an event. -/
def Watcher.wmatch (w : Watcher) (e : WEvent) : Bool :=
  match e with
  | WEvent.online => w.won
  | WEvent.offline => w.woff
  | WEvent.failure => w.wfail
  | WEvent.success => w.wsucc

/-- Observable effects: a watcher invocation `(upstream, event, count)` (one
log entry per matching watcher, in registration order), or an invocation of
the DNS resolve path for an upstream. -/
inductive UEvent
  | watch (k : Nat) (e : WEvent) (count : Nat)
  | resolve (k : Nat)
  deriving Repr, DecidableEq

/-- Embedding of `struct upstream_list` (upstream.c:84-95) together with the
relevant context state (`struct upstream_ctx`) and an event log.  Upstreams
are identified by their index into `ups`; `alive` holds such indices.
`hasCtx` models a non-NULL `ctx` pointer and `configured` models a context
configured with an event loop (`rspamd_upstreams_library_config`). -/
structure UList where
  ups : List Upstream
  alive : List Nat
  cur_elt : Nat
  rot_alg : Rotation
  watchers : List Watcher
  limits : Limits
  hasCtx : Bool
  configured : Bool
  log : List UEvent

/-- Lookup of the upstream record behind index `k` (pointer dereference). -/
def UList.upAt (st : UList) (k : Nat) : Upstream :=
  st.ups.getD k defaultUpstream

/-- In-place mutation of the upstream behind index `k`. -/
def UList.modifyUp (st : UList) (k : Nat) (f : Upstream → Upstream) : UList :=
  { st with ups := st.ups.modify f k }

/-- Embedding of the `DL_FOREACH` watcher-firing loops: append one log
entry per watcher whose mask contains the event, in registration order. -/
def UList.fire (st : UList) (k : Nat) (e : WEvent) (count : Nat) : UList :=
  { st with log := st.log ++
      (st.watchers.filter (fun w => w.wmatch e)).map (fun _ => UEvent.watch k e count) }

/-- Embedding of `rspamd_upstream_resolve_addrs` (upstream.c:457-483).  The
resolver handle, in-flight DNS counter and upstream name are external to
this model; the claims only observe that the resolve path was invoked,
recorded as a `UEvent.resolve` entry. -/
def rspamd_upstream_resolve_addrs (st : UList) (k : Nat) : UList :=
  { st with log := st.log ++ [UEvent.resolve k] }

/-- Embedding of `rspamd_upstream_set_active` (upstream.c:274-299): append
to `alive`, set `active_idx` to the new last position, and (re)start the
lazy-resolve timer when a configured context is present and the upstream
is resolvable. -/
def rspamd_upstream_set_active (st : UList) (k : Nat) : UList :=
  let st1 := { st with
    alive := st.alive ++ [k],
    ups := List.modify (fun u => { u with active_idx := (st.alive.length : Int) }) k st.ups }
  if st1.hasCtx ∧ st1.configured ∧ ¬(st1.upAt k).noresolve then
    st1.modifyUp k (fun u => { u with timer := some TimerKind.lazy })
  else st1

/-- Embedding of `rspamd_upstream_restore_cb` (upstream.c:1024-1051): stop
any pending timer, re-insert into `alive` at the back, repair `active_idx`,
and fire `ONLINE` with the upstream's current error count for each
subscribed watcher. -/
def rspamd_upstream_restore_cb (st : UList) (k : Nat) : UList :=
  let st1 := st.modifyUp k (fun u => { u with timer := none })
  let st2 := { st1 with
    alive := st1.alive ++ [k],
    ups := List.modify (fun u => { u with active_idx := (st1.alive.length : Int) }) k st1.ups }
  st2.fire k WEvent.online (st2.upAt k).errors

/-- Embedding of the mass-restore pre-step of `rspamd_upstream_get_common`
(upstream.c:1165-1168): `g_ptr_array_foreach (ups->ups,
rspamd_upstream_restore_cb, ups)` visits every upstream in order. -/
def restoreAllUpstreams (st : UList) : UList :=
  (List.range st.ups.length).foldl rspamd_upstream_restore_cb st

/-- Embedding of the index-repair loop of `rspamd_upstream_set_inactive`
(upstream.c:517-520): walk the alive array and store each position into its
member's `active_idx`. -/
def reindexAlive (ups : List Upstream) : List Nat → Nat → List Upstream
  | [], _ => ups
  | a :: rest, i =>
    reindexAlive (List.modify (fun u => { u with active_idx := (i : Int) }) a ups) rest (i + 1)

/-- Embedding of `rspamd_upstream_set_inactive` (upstream.c:504-550): remove
the upstream from `alive` at its `active_idx`, clear its index, repair all
remaining indices, and — when a context is present — invoke the resolve
path and arm the revive timer (started only on a configured context);
finally fire `OFFLINE` with the upstream's current error count. -/
def rspamd_upstream_set_inactive (st : UList) (k : Nat) : UList :=
  let st1 := { st with alive := st.alive.eraseIdx (st.upAt k).active_idx.toNat }
  let st2 := st1.modifyUp k (fun u => { u with active_idx := -1 })
  let st3 := { st2 with ups := reindexAlive st2.ups st2.alive 0 }
  let st4 :=
    if st3.hasCtx then
      let st' := rspamd_upstream_resolve_addrs st3 k
      st'.modifyUp k (fun u =>
        { u with timer := if st'.configured then some TimerKind.revive else none })
    else st3
  st4.fire k WEvent.offline (st4.upAt k).errors

/-- Embedding of `rspamd_upstream_revive_cb` (upstream.c:438-455): stop the
revive timer and re-insert via `rspamd_upstream_set_active`. -/
def rspamd_upstream_revive_cb (st : UList) (k : Nat) : UList :=
  rspamd_upstream_set_active (st.modifyUp k (fun u => { u with timer := none })) k

/-- Embedding of `rspamd_upstream_fail` (upstream.c:552-624), with the
current time `now` (`rspamd_get_ticks`) supplied as a parameter.  Active
only when a context is present and the upstream is alive.  A first error
stamps `last_fail` and fires `FAILURE(1)`; a later error (with
non-decreasing clock) increments `errors`, fires `FAILURE(errors)`, and
compares the error rate against `max_errors / error_time` (rate `1 > 0`
when the clock has not advanced): on excess, a list with more than one
upstream ejects this one (errors cleared first), a singleton list instead
clears errors and re-resolves once `revive_time` has elapsed.  An address
failure additionally bumps the current address's error counter. -/
def rspamd_upstream_fail (st : UList) (k : Nat) (addr_failure : Bool) (now : ℚ) : UList :=
  if st.hasCtx = true ∧ (st.upAt k).active_idx ≠ -1 then
    let st1 :=
      if (st.upAt k).errors = 0 then
        let sta := st.modifyUp k (fun u => { u with last_fail := now, errors := 1 })
        sta.fire k WEvent.failure 1
      else
        if now ≥ (st.upAt k).last_fail then
          let sec_last := (st.upAt k).last_fail
          let sta := st.modifyUp k (fun u => { u with errors := u.errors + 1 })
          let stb := sta.fire k WEvent.failure (sta.upAt k).errors
          let er_mr : ℚ × ℚ :=
            if now > sec_last then
              (((stb.upAt k).errors : ℚ) / (now - sec_last),
                (stb.limits.max_errors : ℚ) / stb.limits.error_time)
            else (1, 0)
          if er_mr.1 > er_mr.2 then
            if stb.ups.length > 1 then
              rspamd_upstream_set_inactive (stb.modifyUp k (fun u => { u with errors := 0 })) k
            else
              if now - sec_last > stb.limits.revive_time then
                rspamd_upstream_resolve_addrs
                  (stb.modifyUp k (fun u => { u with errors := 0 })) k
              else stb
          else stb
        else st
    if addr_failure then
      st1.modifyUp k (fun u =>
        { u with addrs := List.modify (fun e => { e with errors := e.errors + 1 }) u.cur u.addrs })
    else st1
  else st

/-! ## Selection (upstream.c:1053-1228) -/

/-- Embedding of `rspamd_upstream_get_random` (upstream.c:1053-1059).
Modelled from the spec: the external RNG helper picks an index in
`[0, alive.len − 1)` (full range `[0, alive.len)` is accepted here, a
superset); the drawn index is supplied as the oracle argument `ridx`.
Out-of-range indexing — undefined behaviour in C — yields `none`. -/
def rspamd_upstream_get_random (st : UList) (ridx : Nat) : Option Nat :=
  st.alive[ridx]?

/-- Embedding of `rspamd_upstream_get_hashed` (upstream.c:1139-1154).
Modelled from the spec: the 64-bit xxhash of the caller's key under the
list seed is external; its value is supplied as `khash`.  The bucket is the
consistent hash of it over the alive count. -/
def rspamd_upstream_get_hashed (st : UList) (khash : Nat) : Option Nat :=
  st.alive[rspamd_consistent_hash khash st.alive.length]?

/-- Scan accumulator of `rspamd_upstream_get_round_robin`
(upstream.c:1064-1090): running maximum weight with its upstream, and the
min-checked tracker with its upstream. -/
structure RRAcc where
  max_weight : Nat
  selected : Option Nat
  min_checked : Nat
  min_checked_sel : Option Nat
  deriving Repr, DecidableEq

/-- Loop body of the round-robin scan (upstream.c:1071-1090): track the
maximum `cur_weight` (or static `weight` when `use_cur` is false), and
separately the fallback upstream — updated whenever
`checked * (errors + 1)` (a `guint` product, mod `2 ^ 32`) drops below the
tracker, which is then set to that upstream's `checked` (not the
product). -/
def rrScanStep (st : UList) (use_cur : Bool) (acc : RRAcc) (k : Nat) : RRAcc :=
  let u := st.upAt k
  let acc1 :=
    if use_cur then
      if u.cur_weight > acc.max_weight then
        { acc with selected := some k, max_weight := u.cur_weight }
      else acc
    else
      if u.weight > acc.max_weight then
        { acc with selected := some k, max_weight := u.weight }
      else acc
  if u.checked * (u.errors + 1) % 2 ^ 32 < acc1.min_checked then
    { acc1 with min_checked_sel := some k, min_checked := u.checked }
  else acc1

/-- Reset loop of upstream.c:1095-1098: zero the `checked` counter of every
alive upstream. -/
def resetCheckedAll (ups : List Upstream) (alive : List Nat) : List Upstream :=
  alive.foldl (fun acc a => List.modify (fun u => { u with checked := 0 }) a acc) ups

/-- Embedding of `rspamd_upstream_get_round_robin` (upstream.c:1061-1116):
scan `alive`; if the maximum weight is zero, fall back to the min-checked
selection (resetting every alive upstream's `checked` when the tracker
exceeds `G_MAXUINT / 2`); under `use_cur`, decrement the winner's
`cur_weight`, refilling from `weight` when it is already zero. -/
def rspamd_upstream_get_round_robin (st : UList) (use_cur : Bool) : Option Nat × UList :=
  let acc := st.alive.foldl (rrScanStep st use_cur) ⟨0, none, 2 ^ 32 - 1, none⟩
  let st1 :=
    if acc.max_weight = 0 ∧ acc.min_checked > (2 ^ 32 - 1) / 2 then
      { st with ups := resetCheckedAll st.ups st.alive }
    else st
  let selected := if acc.max_weight = 0 then acc.min_checked_sel else acc.selected
  let st2 :=
    match use_cur, selected with
    | true, some s =>
      st1.modifyUp s (fun u =>
        if u.cur_weight > 0 then { u with cur_weight := u.cur_weight - 1 }
        else { u with cur_weight := u.weight })
    | _, _ => st1
  (selected, st2)

/-- Rotation resolution of `rspamd_upstream_get_common` (upstream.c:1171-1181):
non-forced calls prefer the list's algorithm, forced calls prefer the
argument; a hashed pick without a key degrades to random. -/
def resolveRotationType (st : UList) (default_type : Rotation) (forced : Bool)
    (hasKey : Bool) : Rotation :=
  let t :=
    if forced = false then
      if st.rot_alg ≠ Rotation.undef then st.rot_alg else default_type
    else
      if default_type ≠ Rotation.undef then default_type else st.rot_alg
  if t = Rotation.hashed ∧ hasKey = false then Rotation.random else t

/-- Embedding of `rspamd_upstream_get_common` (upstream.c:1156-1212): mass
restore when `alive` is empty, resolve the rotation, dispatch (`undef`
falls into the `random` case, as in the C `switch`), and bump the winner's
`checked`.  Sequential exhaustion resets `cur_elt` and returns `none`
before the bump. -/
def rspamd_upstream_get_common (st : UList) (default_type : Rotation)
    (hasKey : Bool) (khash : Nat) (forced : Bool) (ridx : Nat) : Option Nat × UList :=
  let st0 := if st.alive.length = 0 then restoreAllUpstreams st else st
  let rot := resolveRotationType st0 default_type forced hasKey
  let pick : Option Nat × UList :=
    match rot with
    | Rotation.hashed => (rspamd_upstream_get_hashed st0 khash, st0)
    | Rotation.round_robin => rspamd_upstream_get_round_robin st0 true
    | Rotation.master_slave => rspamd_upstream_get_round_robin st0 false
    | Rotation.sequential =>
      if st0.cur_elt ≥ st0.alive.length then (none, { st0 with cur_elt := 0 })
      else (st0.alive[st0.cur_elt]?, { st0 with cur_elt := st0.cur_elt + 1 })
    | _ => (rspamd_upstream_get_random st0 ridx, st0)
  match pick.1 with
  | some k => (some k, pick.2.modifyUp k (fun u => { u with checked := u.checked + 1 }))
  | none => (none, pick.2)

/-- Embedding of `rspamd_upstream_get` (upstream.c:1214-1220). -/
def rspamd_upstream_get (st : UList) (default_type : Rotation)
    (hasKey : Bool) (khash : Nat) (ridx : Nat) : Option Nat × UList :=
  rspamd_upstream_get_common st default_type hasKey khash false ridx

/-- Iterated parameterless Gets (no key, random oracle fixed at 0), used to
express claims about consecutive Sequential selections. -/
def iterGets (st : UList) : Nat → List (Option Nat) × UList
  | 0 => ([], st)
  | m + 1 =>
    let r := rspamd_upstream_get st Rotation.undef false 0 0
    let rest := iterGets r.2 m
    (r.1 :: rest.1, rest.2)

/-! ## Well-formedness of the alive array -/

/-- Spec invariant 2 together with basic sanity of `alive`: its members are
distinct valid indices, every alive position is stored in its member's
`active_idx`, and every non-alive upstream carries the sentinel `-1`. -/
def UList.wf (st : UList) : Prop :=
  st.alive.Nodup ∧
  (∀ k ∈ st.alive, k < st.ups.length) ∧
  (∀ p ∈ List.range st.alive.length, (st.upAt (st.alive.getD p 0)).active_idx = (p : Int)) ∧
  (∀ k ∈ List.range st.ups.length, k ∉ st.alive → (st.upAt k).active_idx = -1)

instance (st : UList) : Decidable st.wf := by
  unfold UList.wf
  infer_instance

/-! ## Basic state lemmas -/

/-- Mutating upstream `k` in place changes exactly its record. -/
theorem upAt_modifyUp_self (st : UList) (k : Nat) (f : Upstream → Upstream)
    (hk : k < st.ups.length) : (st.modifyUp k f).upAt k = f (st.upAt k) := by
  simp [UList.modifyUp, UList.upAt, List.getD_eq_getElem?_getD, List.getElem?_modify,
    List.getElem?_eq_getElem hk]

/-- Mutating upstream `k` leaves every other record untouched. -/
theorem upAt_modifyUp_ne (st : UList) (k k' : Nat) (f : Upstream → Upstream)
    (h : k ≠ k') : (st.modifyUp k f).upAt k' = st.upAt k' := by
  simp [UList.modifyUp, UList.upAt, List.getD_eq_getElem?_getD, List.getElem?_modify, h]

/-- Sequential step of Get: with the list's rotation Sequential and the
cursor in range, Get returns the alive element at the cursor,
post-increments the cursor and bumps the winner's `checked`. -/
theorem get_seq_step (st : UList) (hrot : st.rot_alg = Rotation.sequential)
    (hne : st.alive ≠ []) (hcur : st.cur_elt < st.alive.length) :
    ∃ k, st.alive[st.cur_elt]? = some k ∧
      rspamd_upstream_get st Rotation.undef false 0 0 =
        (some k, (({ st with cur_elt := st.cur_elt + 1 } : UList)).modifyUp k
          (fun u => { u with checked := u.checked + 1 })) := by
  have hlen : st.alive.length ≠ 0 := fun h => hne (List.length_eq_zero.mp h)
  have hk : st.cur_elt < st.alive.length := hcur
  refine ⟨st.alive[st.cur_elt], List.getElem?_eq_getElem hk, ?_⟩
  have hnge : ¬ st.cur_elt ≥ st.alive.length := by omega
  unfold rspamd_upstream_get rspamd_upstream_get_common resolveRotationType
  rw [if_neg hlen]
  simp +decide [hrot, hnge, List.getElem?_eq_getElem hk]

/-- Sequential exhaustion step of Get: with the cursor at or past the end,
Get resets the cursor and returns none. -/
theorem get_seq_exhaust (st : UList) (hrot : st.rot_alg = Rotation.sequential)
    (hne : st.alive ≠ []) (hcur : st.cur_elt ≥ st.alive.length) :
    rspamd_upstream_get st Rotation.undef false 0 0 = (none, { st with cur_elt := 0 }) := by
  have hlen : st.alive.length ≠ 0 := fun h => hne (List.length_eq_zero.mp h)
  unfold rspamd_upstream_get rspamd_upstream_get_common resolveRotationType
  rw [if_neg hlen]
  simp +decide [hrot, hcur]

/-- Unfolding of `iterGets` from the back: `m + 1` Gets are `m` Gets
followed by one more on the resulting state. -/
theorem iterGets_succ_back : ∀ (m : Nat) (st : UList),
    iterGets st (m + 1) =
      ((iterGets st m).1 ++ [(rspamd_upstream_get (iterGets st m).2 Rotation.undef false 0 0).1],
        (rspamd_upstream_get (iterGets st m).2 Rotation.undef false 0 0).2) := by
  intro m
  induction m with
  | zero => intro st; rfl
  | succ m ih =>
    intro st
    show (_ :: (iterGets _ (m + 1)).1, (iterGets _ (m + 1)).2) = _
    rw [ih]
    rfl

/-- Run of `m` Sequential Gets starting at cursor `c` with `c + m` within
the alive count: the results are the alive slice `[c, c + m)` in order, and
the final state keeps the same alive array and rotation with the cursor
advanced by `m`. -/
theorem iterGets_seq : ∀ (m : Nat) (st : UList),
    st.rot_alg = Rotation.sequential → st.alive ≠ [] →
    st.cur_elt + m ≤ st.alive.length →
    (iterGets st m).1 = ((st.alive.drop st.cur_elt).take m).map some ∧
      (iterGets st m).2.alive = st.alive ∧
      (iterGets st m).2.rot_alg = Rotation.sequential ∧
      (iterGets st m).2.cur_elt = st.cur_elt + m := by
  intro m
  induction m with
  | zero =>
    intro st hrot _ _
    exact ⟨rfl, rfl, hrot, rfl⟩
  | succ m ih =>
    intro st hrot hne hm
    rcases get_seq_step st hrot hne (by omega) with ⟨k, hk, hstep⟩
    have hlt : st.cur_elt < st.alive.length := by omega
    have hkv : st.alive[st.cur_elt] = k := by
      have h2 := List.getElem?_eq_getElem (l := st.alive) (n := st.cur_elt) hlt
      rw [h2] at hk
      exact Option.some.inj hk
    set st' := (({ st with cur_elt := st.cur_elt + 1 } : UList)).modifyUp k
      (fun u => { u with checked := u.checked + 1 }) with hst'
    have halive' : st'.alive = st.alive := rfl
    have hrot' : st'.rot_alg = Rotation.sequential := hrot
    have hcur' : st'.cur_elt = st.cur_elt + 1 := rfl
    have hne' : st'.alive ≠ [] := by rw [halive']; exact hne
    have ihr := ih st' hrot' hne' (by rw [halive', hcur']; omega)
    have hunf : iterGets st (m + 1) =
        ((rspamd_upstream_get st Rotation.undef false 0 0).1 ::
          (iterGets (rspamd_upstream_get st Rotation.undef false 0 0).2 m).1,
         (iterGets (rspamd_upstream_get st Rotation.undef false 0 0).2 m).2) := rfl
    rw [hunf, hstep]
    refine ⟨?_, ?_, ?_, ?_⟩
    · show some k :: (iterGets st' m).1 = _
      rw [ihr.1, halive', hcur']
      rw [List.drop_eq_getElem_cons (by omega : st.cur_elt < st.alive.length)]
      rw [hkv, List.take_succ_cons, List.map_cons]
    · show (iterGets st' m).2.alive = st.alive
      rw [ihr.2.1, halive']
    · exact ihr.2.2.1
    · show (iterGets st' m).2.cur_elt = st.cur_elt + (m + 1)
      rw [ihr.2.2.2, hcur']
      omega

/-- Claim C6: with Sequential rotation, `N ≥ 1` alive upstreams and
`cur_elt = 0`, `N` consecutive Gets return `alive[0], …, alive[N−1]` — each
alive upstream exactly once when `alive` has no duplicates — and the
`(N+1)`-th Get returns none and resets `cur_elt` to 0, leaving `alive`
unchanged. -/
theorem c6_sequential_exhaustive (st : UList) (hrot : st.rot_alg = Rotation.sequential)
    (hcur : st.cur_elt = 0) (hne : st.alive ≠ []) :
    (iterGets st st.alive.length).1 = st.alive.map some ∧
    (iterGets st (st.alive.length + 1)).1 = st.alive.map some ++ [none] ∧
    (iterGets st (st.alive.length + 1)).2.cur_elt = 0 ∧
    (iterGets st (st.alive.length + 1)).2.alive = st.alive ∧
    (st.alive.Nodup → (iterGets st st.alive.length).1.Nodup) := by
  have hfull := iterGets_seq st.alive.length st hrot hne (by omega)
  have hres : (iterGets st st.alive.length).1 = st.alive.map some := by
    rw [hfull.1, hcur, List.drop_zero, List.take_length]
  have hlast := get_seq_exhaust (iterGets st st.alive.length).2
    hfull.2.2.1 (by rw [hfull.2.1]; exact hne)
    (by rw [hfull.2.2.2, hfull.2.1, hcur]; omega)
  have hsucc := iterGets_succ_back st.alive.length st
  refine ⟨hres, ?_, ?_, ?_, ?_⟩
  · rw [hsucc, hlast, hres]
  · rw [hsucc, hlast]
  · rw [hsucc, hlast]
    exact hfull.2.1
  · intro hnd
    rw [hres]
    exact hnd.map (fun a b => Option.some.inj)

/-- Example list for the C6 witness: two upstreams, both alive, Sequential
rotation, cursor 0. -/
def c6St : UList :=
  { ups := [defaultUpstream, defaultUpstream], alive := [0, 1], cur_elt := 0,
    rot_alg := Rotation.sequential, watchers := [], limits := defaultLimits,
    hasCtx := false, configured := false, log := [] }

/-- Witness for C6: two alive upstreams, Sequential rotation, cursor 0. -/
theorem c6_witness :
    c6St.rot_alg = Rotation.sequential ∧
    (iterGets c6St c6St.alive.length).1 = c6St.alive.map some ∧
    (iterGets c6St (c6St.alive.length + 1)).1 = c6St.alive.map some ++ [none] ∧
    (iterGets c6St (c6St.alive.length + 1)).2.cur_elt = 0 := by
  have h := c6_sequential_exhaustive c6St rfl rfl (by decide)
  exact ⟨rfl, h.1, h.2.1, h.2.2.1⟩

/-! ## Claim C3: round-robin min-checked fallback -/

/-- Example list for the C3 counterexample: two alive upstreams with all
weights zero; upstream 0 has `checked = 3, errors = 3` (product 12),
upstream 1 has `checked = 2, errors = 1` (product 4). -/
def c3St : UList :=
  { ups := [{ defaultUpstream with checked := 3, errors := 3 },
            { defaultUpstream with checked := 2, errors := 1 }],
    alive := [0, 1], cur_elt := 0, rot_alg := Rotation.round_robin, watchers := [],
    limits := defaultLimits, hasCtx := false, configured := false, log := [] }

/-- Claim C3 is false as stated: with all weights zero the code does not
select the upstream minimizing `checked × (errors + 1)`.  On `c3St` the
scan selects upstream 0 (product 12) even though upstream 1 has the
strictly smaller product 4 — because the tracker is lowered to the selected
upstream's `checked` (3), which the later product 4 fails to beat. -/
theorem c3_counterexample :
    (rspamd_upstream_get_round_robin c3St true).1 = some 0 ∧
    (rspamd_upstream_get_round_robin c3St false).1 = some 0 ∧
    (∀ k ∈ c3St.alive, (c3St.upAt k).cur_weight = 0 ∧ (c3St.upAt k).weight = 0) ∧
    (c3St.upAt 1).checked * ((c3St.upAt 1).errors + 1) % 2 ^ 32 <
      (c3St.upAt 0).checked * ((c3St.upAt 0).errors + 1) % 2 ^ 32 := by
  exact ⟨by decide, by decide, by decide, by decide⟩

/-- Scan loop of the amended claim C3, written as plain recursion over the
alive indices with the four accumulator components explicit: an upstream
`u` becomes the fallback selection exactly when `u.checked × (u.errors + 1)`
(computed mod `2 ^ 32`) is below the tracker `m` (initially `2 ^ 32 − 1`),
whereupon `m` is set to `u.checked` — not to the product. -/
def rr_amended_scan (st : UList) (use_cur : Bool) :
    List Nat → Nat → Option Nat → Nat → Option Nat → RRAcc
  | [], mw, sel, m, fsel => ⟨mw, sel, m, fsel⟩
  | k :: rest, mw, sel, m, fsel =>
    let u := st.upAt k
    let w := if use_cur then u.cur_weight else u.weight
    let mw' := if w > mw then w else mw
    let sel' := if w > mw then some k else sel
    let m' := if u.checked * (u.errors + 1) % 2 ^ 32 < m then u.checked else m
    let fsel' := if u.checked * (u.errors + 1) % 2 ^ 32 < m then some k else fsel
    rr_amended_scan st use_cur rest mw' sel' m' fsel'

/-- Round-robin / master-slave selection as the amended claim describes it:
run the scan; when the maximum weight is zero take the fallback selection,
resetting every alive upstream's `checked` to 0 when the final tracker
exceeds `⌊(2^32 − 1) / 2⌋`; under `use_cur` decrement the winner's weight
(refill from the static weight at zero). -/
def rr_amended (st : UList) (use_cur : Bool) : Option Nat × UList :=
  let acc := rr_amended_scan st use_cur st.alive 0 none (2 ^ 32 - 1) none
  let st1 :=
    if acc.max_weight = 0 ∧ acc.min_checked > (2 ^ 32 - 1) / 2 then
      { st with ups := resetCheckedAll st.ups st.alive }
    else st
  let selected := if acc.max_weight = 0 then acc.min_checked_sel else acc.selected
  let st2 :=
    match use_cur, selected with
    | true, some s =>
      st1.modifyUp s (fun u =>
        if u.cur_weight > 0 then { u with cur_weight := u.cur_weight - 1 }
        else { u with cur_weight := u.weight })
    | _, _ => st1
  (selected, st2)

/-- One scan step agrees between the embedded fold and the amended
recursion. -/
theorem rrScanStep_eq (st : UList) (use_cur : Bool) (k : Nat)
    (mw : Nat) (sel : Option Nat) (m : Nat) (fsel : Option Nat) :
    rrScanStep st use_cur ⟨mw, sel, m, fsel⟩ k =
      (⟨if (if use_cur then (st.upAt k).cur_weight else (st.upAt k).weight) > mw
          then (if use_cur then (st.upAt k).cur_weight else (st.upAt k).weight) else mw,
        if (if use_cur then (st.upAt k).cur_weight else (st.upAt k).weight) > mw
          then some k else sel,
        if (st.upAt k).checked * ((st.upAt k).errors + 1) % 2 ^ 32 < m
          then (st.upAt k).checked else m,
        if (st.upAt k).checked * ((st.upAt k).errors + 1) % 2 ^ 32 < m
          then some k else fsel⟩ : RRAcc) := by
  cases use_cur <;> simp only [rrScanStep, Bool.false_eq_true, if_false, if_true] <;>
    split_ifs <;> rfl

/-- Fold and amended scan agree on every suffix of the alive list. -/
theorem rr_scan_eq (st : UList) (use_cur : Bool) :
    ∀ (l : List Nat) (mw : Nat) (sel : Option Nat) (m : Nat) (fsel : Option Nat),
      l.foldl (rrScanStep st use_cur) ⟨mw, sel, m, fsel⟩ =
        rr_amended_scan st use_cur l mw sel m fsel := by
  intro l
  induction l with
  | nil => intro mw sel m fsel; rfl
  | cons k rest ih =>
    intro mw sel m fsel
    rw [List.foldl_cons, rrScanStep_eq]
    exact ih _ _ _ _

/-- Claim C3 (amended): with all alive weights zero the selected upstream is
the fallback of the described scan — each upstream whose
`checked × (errors + 1)` (mod `2 ^ 32`) is below the running tracker
replaces the fallback and lowers the tracker to its `checked` — and every
alive upstream's `checked` is reset to 0 exactly when the final tracker
exceeds `⌊(2^32 − 1)/2⌋`; this holds for RoundRobin (`use_cur = true`,
with the winner's `cur_weight` then decremented or refilled) and
MasterSlave (`use_cur = false`) alike. -/
theorem c3_amended (st : UList) (use_cur : Bool) :
    rspamd_upstream_get_round_robin st use_cur = rr_amended st use_cur := by
  unfold rspamd_upstream_get_round_robin rr_amended
  rw [rr_scan_eq]

/-! ## Invariant preservation (claim C8) -/

/-- Record fields other than `active_idx` do not affect the index facts. -/
theorem upAt_modifyUp_active_idx (st : UList) (k : Nat) (f : Upstream → Upstream)
    (hf : ∀ u, (f u).active_idx = u.active_idx) (p : Nat) :
    ((st.modifyUp k f).upAt p).active_idx = (st.upAt p).active_idx := by
  by_cases hpk : k = p
  · subst hpk
    by_cases hk : k < st.ups.length
    · rw [upAt_modifyUp_self st k f hk, hf]
    · have : List.modify f k st.ups = st.ups := List.modify_eq_self (by omega)
      show ((({ st with ups := List.modify f k st.ups } : UList)).upAt k).active_idx = _
      rw [this]
  · rw [upAt_modifyUp_ne st k p f hpk]

/-- Well-formedness survives any in-place mutation that keeps `active_idx`. -/
theorem wf_modifyUp (st : UList) (k : Nat) (f : Upstream → Upstream)
    (hf : ∀ u, (f u).active_idx = u.active_idx) (hwf : st.wf) : (st.modifyUp k f).wf := by
  obtain ⟨h1, h2, h3, h4⟩ := hwf
  refine ⟨h1, ?_, ?_, ?_⟩
  · intro a ha
    have := h2 a ha
    show a < (List.modify f k st.ups).length
    rw [List.length_modify]
    exact this
  · intro p hp
    rw [upAt_modifyUp_active_idx st k f hf]
    exact h3 p hp
  · intro a ha hna
    rw [upAt_modifyUp_active_idx st k f hf]
    refine h4 a ?_ hna
    rw [List.mem_range] at ha ⊢
    rw [show (st.modifyUp k f).ups.length = st.ups.length from List.length_modify f k st.ups] at ha
    exact ha

/-- Appending a fresh upstream to `alive` and stamping its index at the new
back position preserves well-formedness (common core of set_active and
restore_cb). -/
theorem wf_append (st : UList) (k : Nat) (hk : k < st.ups.length) (hnk : k ∉ st.alive)
    (hwf : st.wf) :
    (({ st with
        alive := st.alive ++ [k],
        ups := List.modify (fun u => { u with active_idx := (st.alive.length : Int) })
          k st.ups } : UList)).wf := by
  obtain ⟨h1, h2, h3, h4⟩ := hwf
  set st' : UList := { st with
    alive := st.alive ++ [k],
    ups := List.modify (fun u => { u with active_idx := (st.alive.length : Int) }) k st.ups }
    with hst'
  have hups : ∀ p : Nat, st'.upAt p =
      if k = p then
        { st.upAt p with active_idx := (st.alive.length : Int) }
      else st.upAt p := by
    intro p
    by_cases hpk : k = p
    · subst hpk
      rw [if_pos rfl]
      exact upAt_modifyUp_self st k _ hk
    · rw [if_neg hpk]
      exact upAt_modifyUp_ne st k p _ hpk
  refine ⟨?_, ?_, ?_, ?_⟩
  · show (st.alive ++ [k]).Nodup
    simp [List.nodup_append, h1, hnk]
  · intro a ha
    show a < (List.modify _ k st.ups).length
    rw [List.length_modify]
    rcases List.mem_append.mp ha with h | h
    · exact h2 a h
    · rw [List.mem_singleton.mp h]; exact hk
  · intro p hp
    rw [List.mem_range] at hp
    show ((st'.upAt ((st.alive ++ [k]).getD p 0)).active_idx) = (p : Int)
    have hlen : (st.alive ++ [k]).length = st.alive.length + 1 := by simp
    rw [hlen] at hp
    by_cases hplt : p < st.alive.length
    · have hget : (st.alive ++ [k]).getD p 0 = st.alive.getD p 0 := by
        rw [List.getD_eq_getElem?_getD, List.getD_eq_getElem?_getD, List.getElem?_append,
          if_pos hplt]
      rw [hget]
      have hmem : st.alive.getD p 0 ∈ st.alive := by
        rw [List.getD_eq_getElem?_getD, List.getElem?_eq_getElem hplt]
        exact List.getElem_mem _
      have hne : k ≠ st.alive.getD p 0 := fun h => hnk (h ▸ hmem)
      rw [hups, if_neg hne]
      exact h3 p (List.mem_range.mpr hplt)
    · have hpe : p = st.alive.length := by omega
      have hget : (st.alive ++ [k]).getD p 0 = k := by
        rw [List.getD_eq_getElem?_getD, List.getElem?_append, if_neg (by omega), hpe]
        simp
      rw [hget, hups, if_pos rfl, hpe]
  · intro a ha hna
    rw [List.mem_range] at ha
    rw [show st'.ups.length = st.ups.length from List.length_modify _ k st.ups] at ha
    have hak : k ≠ a := fun h => hna (by rw [← h]; exact List.mem_append_right _ (by simp))
    have hnaa : a ∉ st.alive := fun h => hna (List.mem_append_left _ h)
    rw [hups, if_neg hak]
    exact h4 a (List.mem_range.mpr ha) hnaa

/-- List-level modify lookup, same position. -/
theorem getD_modify_self {α : Type} (l : List α) (a : Nat) (f : α → α) (d : α)
    (h : a < l.length) : (List.modify f a l).getD a d = f (l.getD a d) := by
  simp [List.getD_eq_getElem?_getD, List.getElem?_modify, List.getElem?_eq_getElem h]

/-- List-level modify lookup, different position. -/
theorem getD_modify_ne {α : Type} (l : List α) (a b : Nat) (f : α → α) (d : α)
    (h : a ≠ b) : (List.modify f a l).getD b d = l.getD b d := by
  simp [List.getD_eq_getElem?_getD, List.getElem?_modify, h]

/-- Preservation of well-formedness by `rspamd_upstream_set_active` on a
fresh in-range upstream. -/
theorem wf_set_active (st : UList) (k : Nat) (hk : k < st.ups.length)
    (hnk : k ∉ st.alive) (hwf : st.wf) : (rspamd_upstream_set_active st k).wf := by
  simp only [rspamd_upstream_set_active]
  have h1 := wf_append st k hk hnk hwf
  split
  · exact wf_modifyUp _ k _ (fun u => rfl) h1
  · exact h1

/-- Preservation of well-formedness by `rspamd_upstream_restore_cb` on a
fresh in-range upstream. -/
theorem wf_restore_cb (st : UList) (k : Nat) (hk : k < st.ups.length)
    (hnk : k ∉ st.alive) (hwf : st.wf) : (rspamd_upstream_restore_cb st k).wf := by
  have h1 : (st.modifyUp k (fun u => { u with timer := none })).wf :=
    wf_modifyUp st k _ (fun u => rfl) hwf
  have h2 := wf_append (st.modifyUp k (fun u => { u with timer := none })) k
    (by show k < (List.modify _ k st.ups).length; rw [List.length_modify]; exact hk)
    hnk h1
  exact h2

/-- Preservation of well-formedness by a fold of restores over fresh
distinct upstreams. -/
theorem wf_restore_fold : ∀ (l : List Nat) (st : UList), st.wf → l.Nodup →
    (∀ k ∈ l, k < st.ups.length ∧ k ∉ st.alive) →
    (l.foldl rspamd_upstream_restore_cb st).wf := by
  intro l
  induction l with
  | nil => intro st hwf _ _; exact hwf
  | cons k rest ih =>
    intro st hwf hnd hmem
    rw [List.foldl_cons]
    have hk := hmem k (List.mem_cons_self k rest)
    have hwf1 := wf_restore_cb st k hk.1 hk.2 hwf
    refine ih _ hwf1 (List.Nodup.of_cons hnd) ?_
    intro a ha
    have hma := hmem a (List.mem_cons_of_mem k ha)
    constructor
    · show a < (List.modify _ k (List.modify _ k st.ups)).length
      rw [List.length_modify, List.length_modify]
      exact hma.1
    · show a ∉ st.alive ++ [k]
      intro hcon
      rcases List.mem_append.mp hcon with h | h
      · exact hma.2 h
      · rw [List.mem_singleton.mp h] at ha
        exact (List.nodup_cons.mp hnd).1 ha

/-- Full characterisation of the index-repair loop: lengths are preserved,
every listed position gets its index stamped, everything else is
untouched. -/
theorem reindexAlive_spec : ∀ (l : List Nat) (ups : List Upstream) (i : Nat),
    l.Nodup → (∀ a ∈ l, a < ups.length) →
    (reindexAlive ups l i).length = ups.length ∧
    (∀ p (hp : p < l.length),
      ((reindexAlive ups l i).getD (l.get ⟨p, hp⟩) defaultUpstream).active_idx =
        ((i + p : Nat) : Int)) ∧
    (∀ k, k ∉ l →
      (reindexAlive ups l i).getD k defaultUpstream = ups.getD k defaultUpstream) := by
  intro l
  induction l with
  | nil =>
    intro ups i _ _
    exact ⟨rfl, fun p hp => absurd hp (by simp), fun k _ => rfl⟩
  | cons a rest ih =>
    intro ups i hnd hmem
    have ha : a < ups.length := hmem a (List.mem_cons_self a rest)
    have hrest := ih (List.modify (fun u => { u with active_idx := (i : Int) }) a ups) (i + 1)
      (List.Nodup.of_cons hnd)
      (by
        intro x hx
        rw [List.length_modify]
        exact hmem x (List.mem_cons_of_mem a hx))
    refine ⟨?_, ?_, ?_⟩
    · show (reindexAlive _ rest (i + 1)).length = ups.length
      rw [hrest.1, List.length_modify]
    · intro p hp
      cases p with
      | zero =>
        show ((reindexAlive _ rest (i + 1)).getD a defaultUpstream).active_idx =
          ((i + 0 : Nat) : Int)
        rw [hrest.2.2 a (List.nodup_cons.mp hnd).1]
        rw [getD_modify_self ups a _ defaultUpstream ha]
        norm_num
      | succ p =>
        have hp2 : p < rest.length := by rw [List.length_cons] at hp; omega
        show ((reindexAlive _ rest (i + 1)).getD (rest.get ⟨p, hp2⟩) defaultUpstream).active_idx =
          ((i + (p + 1) : Nat) : Int)
        rw [hrest.2.1 p hp2]
        congr 1
        omega
    · intro k hkmem
      have hka : a ≠ k := fun h => hkmem (h ▸ List.mem_cons_self a rest)
      have hkrest : k ∉ rest := fun h => hkmem (List.mem_cons_of_mem a h)
      show (reindexAlive _ rest (i + 1)).getD k defaultUpstream = ups.getD k defaultUpstream
      rw [hrest.2.2 k hkrest, getD_modify_ne ups a k _ defaultUpstream hka]

/-- Element at an erased position is gone from the erasure of a
duplicate-free list. -/
theorem getElem_not_mem_eraseIdx (A : List Nat) (hnd : A.Nodup) (q : Nat)
    (hq : q < A.length) : A.get ⟨q, hq⟩ ∉ A.eraseIdx q := by
  intro hmem
  rw [List.mem_eraseIdx_iff_getElem?] at hmem
  obtain ⟨i, hiq, hival⟩ := hmem
  have hilt : i < A.length := by
    by_contra hcon
    rw [List.getElem?_eq_none (by omega)] at hival
    exact Option.noConfusion hival
  rw [List.getElem?_eq_getElem hilt] at hival
  have heq : A[i] = A[q] := Option.some.inj hival
  exact hiq ((hnd.getElem_inj_iff).mp heq)

/-- Any other member survives erasure at position `q`. -/
theorem mem_eraseIdx_of_mem_ne (A : List Nat) (q : Nat) (hq : q < A.length)
    (x : Nat) (hx : x ∈ A) (hne : x ≠ A.get ⟨q, hq⟩) : x ∈ A.eraseIdx q := by
  obtain ⟨r, hr, hAr⟩ := List.getElem_of_mem hx
  rw [List.mem_eraseIdx_iff_getElem?]
  refine ⟨r, ?_, by rw [List.getElem?_eq_getElem hr, hAr]⟩
  intro hcon
  subst hcon
  exact hne (by rw [← hAr]; rfl)

/-- Position of an alive member recorded in its `active_idx` under
well-formedness. -/
theorem wf_active_idx_eq (st : UList) (hwf : st.wf) (k : Nat) (q : Nat)
    (hq : q < st.alive.length) (hAq : st.alive.get ⟨q, hq⟩ = k) :
    (st.upAt k).active_idx = (q : Int) := by
  have h3 := hwf.2.2.1 q (List.mem_range.mpr hq)
  rw [List.getD_eq_getElem?_getD, List.getElem?_eq_getElem hq] at h3
  rw [show st.alive[q] = st.alive.get ⟨q, hq⟩ from rfl, hAq] at h3
  exact h3

/-- Resolving (a log append) followed by a timer write keeps
well-formedness. -/
theorem wf_resolve_timer (st : UList) (k : Nat) (t : Option TimerKind) (h : st.wf) :
    (((rspamd_upstream_resolve_addrs st k).modifyUp k
      (fun u => { u with timer := t }))).wf :=
  wf_modifyUp (rspamd_upstream_resolve_addrs st k) k _ (fun _ => rfl) h

/-- Preservation of well-formedness by `rspamd_upstream_set_inactive` on an
alive upstream. -/
theorem wf_set_inactive (st : UList) (k : Nat) (hwf : st.wf) (hmem : k ∈ st.alive) :
    (rspamd_upstream_set_inactive st k).wf := by
  obtain ⟨q, hq, hAq⟩ := List.getElem_of_mem hmem
  have hkq : (st.upAt k).active_idx = (q : Int) := wf_active_idx_eq st hwf k q hq hAq
  have hkn : k < st.ups.length := hwf.2.1 k hmem
  have hknA : k ∉ st.alive.eraseIdx q := by
    rw [show k = st.alive.get ⟨q, hq⟩ from by rw [← hAq]; rfl]
    exact getElem_not_mem_eraseIdx st.alive hwf.1 q hq
  have hnodup : (st.alive.eraseIdx q).Nodup := hwf.1.sublist (List.eraseIdx_sublist _ _)
  have hmemA : ∀ a ∈ st.alive.eraseIdx q, a < st.ups.length := fun a hamem =>
    hwf.2.1 a ((List.eraseIdx_sublist _ _).mem hamem)
  simp only [rspamd_upstream_set_inactive]
  rw [hkq]
  rw [show ((q : Int)).toNat = q from Int.toNat_natCast q]
  have hreidx := reindexAlive_spec (st.alive.eraseIdx q)
    (List.modify (fun u => { u with active_idx := (-1 : Int) }) k st.ups) 0
    hnodup
    (by intro a hamem; rw [List.length_modify]; exact hmemA a hamem)
  have hwf3 : (({ st with
      alive := st.alive.eraseIdx q,
      ups := reindexAlive
        (List.modify (fun u => { u with active_idx := (-1 : Int) }) k st.ups)
        (st.alive.eraseIdx q) 0 } : UList)).wf := by
    refine ⟨hnodup, ?_, ?_, ?_⟩
    · intro a hamem
      show a < (reindexAlive _ _ 0).length
      rw [hreidx.1, List.length_modify]
      exact hmemA a hamem
    · intro p hp
      rw [List.mem_range] at hp
      show ((reindexAlive _ _ 0).getD ((st.alive.eraseIdx q).getD p 0) defaultUpstream).active_idx
        = (p : Int)
      rw [show (st.alive.eraseIdx q).getD p 0 = (st.alive.eraseIdx q).get ⟨p, hp⟩ from by
        rw [List.getD_eq_getElem?_getD, List.getElem?_eq_getElem hp]; rfl]
      rw [hreidx.2.1 p hp]
      norm_num
    · intro a hamem hnamem
      rw [List.mem_range] at hamem
      show ((reindexAlive _ _ 0).getD a defaultUpstream).active_idx = -1
      rw [hreidx.2.2 a hnamem]
      by_cases hak : a = k
      · subst hak
        rw [getD_modify_self st.ups a _ defaultUpstream (by
          rw [show (reindexAlive _ _ 0).length = _ from hreidx.1, List.length_modify] at hamem
          exact hamem)]
      · rw [getD_modify_ne st.ups k a _ defaultUpstream (fun h => hak h.symm)]
        have hna : a ∉ st.alive := by
          intro hcon
          refine hnamem (mem_eraseIdx_of_mem_ne st.alive q hq a hcon ?_)
          rw [show st.alive.get ⟨q, hq⟩ = k from by rw [← hAq]; rfl]
          exact hak
        refine hwf.2.2.2 a (List.mem_range.mpr ?_) hna
        rw [show (reindexAlive _ _ 0).length = _ from hreidx.1, List.length_modify] at hamem
        exact hamem
  split
  · exact wf_resolve_timer _ k _ hwf3
  · exact hwf3

/-- Firing watchers only appends to the log, which well-formedness ignores. -/
theorem wf_fire (s : UList) (a : Nat) (e : WEvent) (c : Nat) (h : s.wf) :
    (UList.fire s a e c).wf := h

/-- Invoking the resolve path only appends to the log. -/
theorem wf_resolve (s : UList) (a : Nat) (h : s.wf) :
    (rspamd_upstream_resolve_addrs s a).wf := h

/-- Preservation of well-formedness by `rspamd_upstream_fail` for any
in-range upstream, time and failure kind. -/
theorem wf_fail (st : UList) (k : Nat) (af : Bool) (now : ℚ)
    (hk : k < st.ups.length) (hwf : st.wf) : (rspamd_upstream_fail st k af now).wf := by
  simp only [rspamd_upstream_fail]
  split
  · rename_i hguard
    have hmem : k ∈ st.alive := by
      by_contra hna
      exact hguard.2 (hwf.2.2.2 k (List.mem_range.mpr hk) hna)
    repeat' split
    all_goals first
      | exact hwf
      | exact wf_modifyUp _ k _ (fun _ => rfl) hwf
      | exact wf_fire _ _ _ _ (wf_modifyUp _ k _ (fun _ => rfl) hwf)
      | exact wf_modifyUp _ k _ (fun _ => rfl)
          (wf_fire _ _ _ _ (wf_modifyUp _ k _ (fun _ => rfl) hwf))
      | exact wf_set_inactive _ k
          (wf_modifyUp _ k _ (fun _ => rfl)
            (wf_fire _ _ _ _ (wf_modifyUp _ k _ (fun _ => rfl) hwf))) hmem
      | exact wf_modifyUp _ k _ (fun _ => rfl)
          (wf_set_inactive _ k
            (wf_modifyUp _ k _ (fun _ => rfl)
              (wf_fire _ _ _ _ (wf_modifyUp _ k _ (fun _ => rfl) hwf))) hmem)
      | exact wf_resolve _ _
          (wf_modifyUp _ k _ (fun _ => rfl)
            (wf_fire _ _ _ _ (wf_modifyUp _ k _ (fun _ => rfl) hwf)))
      | exact wf_modifyUp _ k _ (fun _ => rfl)
          (wf_resolve _ _
            (wf_modifyUp _ k _ (fun _ => rfl)
              (wf_fire _ _ _ _ (wf_modifyUp _ k _ (fun _ => rfl) hwf))))
  · exact hwf

/-- Claim C8: every operation that mutates the alive array — setting an
upstream active (also used when adding an upstream and by the revive
callback), ejection inside Fail, and the mass restore — preserves
well-formedness of the list, whose third clause is precisely the invariant
`alive[u.active_idx] = u` for every alive `u` (stated over indices:
the upstream at alive position `p` stores `active_idx = p`). -/
theorem c8_alive_index_invariant (st : UList) (k : Nat) (af : Bool) (now : ℚ)
    (hwf : st.wf) :
    (k < st.ups.length → k ∉ st.alive → (rspamd_upstream_set_active st k).wf) ∧
    (k ∈ st.alive → (rspamd_upstream_set_inactive st k).wf) ∧
    (k < st.ups.length → k ∉ st.alive → (rspamd_upstream_revive_cb st k).wf) ∧
    (k < st.ups.length → (rspamd_upstream_fail st k af now).wf) ∧
    (st.alive = [] → (restoreAllUpstreams st).wf) := by
  refine ⟨fun hk hnk => wf_set_active st k hk hnk hwf,
          fun hmem => wf_set_inactive st k hwf hmem,
          fun hk hnk => ?_,
          fun hk => wf_fail st k af now hk hwf,
          fun hal => ?_⟩
  · unfold rspamd_upstream_revive_cb
    refine wf_set_active _ k ?_ hnk (wf_modifyUp st k _ (fun _ => rfl) hwf)
    show k < (List.modify _ k st.ups).length
    rw [List.length_modify]
    exact hk
  · unfold restoreAllUpstreams
    refine wf_restore_fold _ st hwf (List.nodup_range _) ?_
    intro a ha
    exact ⟨List.mem_range.mp ha, by rw [hal]; exact List.not_mem_nil a⟩

/-- Concrete well-formed list for the C8 witness: three upstreams, the
first two alive. -/
def c8St : UList :=
  { ups := [{ defaultUpstream with active_idx := 0 },
            { defaultUpstream with active_idx := 1 },
            { defaultUpstream with active_idx := -1 }],
    alive := [0, 1], cur_elt := 0, rot_alg := Rotation.round_robin,
    watchers := [⟨true, true, true, true⟩], limits := defaultLimits,
    hasCtx := true, configured := true, log := [] }

/-- Concrete well-formed list with an empty alive array, for the mass
restore conjunct of the C8 witness. -/
def c8StE : UList :=
  { ups := [{ defaultUpstream with active_idx := -1 },
            { defaultUpstream with active_idx := -1 }],
    alive := [], cur_elt := 0, rot_alg := Rotation.round_robin,
    watchers := [⟨true, true, true, true⟩], limits := defaultLimits,
    hasCtx := true, configured := true, log := [] }

/-- Witness for C8 on concrete states: activation of a fresh upstream,
ejection of an alive one, revival, a Fail call, and a mass restore all
leave the list well-formed. -/
theorem c8_witness :
    (rspamd_upstream_set_active c8St 2).wf ∧
    (rspamd_upstream_set_inactive c8St 0).wf ∧
    (rspamd_upstream_revive_cb c8St 2).wf ∧
    (rspamd_upstream_fail c8St 0 true 1).wf ∧
    (restoreAllUpstreams c8StE).wf := by
  have h1 := c8_alive_index_invariant c8St 2 true 1 (by decide)
  have h2 := c8_alive_index_invariant c8St 0 true 1 (by decide)
  have h3 := c8_alive_index_invariant c8StE 0 true 1 (by decide)
  exact ⟨h1.1 (by decide) (by decide), h2.2.1 (by decide),
    h1.2.2.1 (by decide) (by decide), h2.2.2.2.1 (by decide), h3.2.2.2.2 (by decide)⟩

/-! ## Claim C5: single-upstream degenerate Fail behaviour -/

/-- Predicate singling out OFFLINE watcher invocations in the log. -/
def offlineEvent (ev : UEvent) : Prop :=
  ∃ a c, ev = UEvent.watch a WEvent.offline c

/-- Sequence of Fail calls against upstream `k`, each with its address-
failure flag and timestamp. -/
def failSeq (st : UList) (k : Nat) : List (Bool × ℚ) → UList
  | [] => st
  | x :: rest => failSeq (rspamd_upstream_fail st k x.1 x.2) k rest

/-- One Fail against a singleton list never changes the alive array (the
ejection branch requires more than one upstream). -/
theorem fail_alive_singleton (st : UList) (k : Nat) (af : Bool) (now : ℚ)
    (h1 : st.ups.length = 1) :
    (rspamd_upstream_fail st k af now).alive = st.alive := by
  simp only [rspamd_upstream_fail]
  repeat' split
  all_goals first
    | rfl
    | (exfalso
       rename_i hgt
       simp only [UList.fire, UList.modifyUp, List.length_modify] at hgt
       omega)

/-- Plain length preservation of the index-repair loop. -/
theorem reindexAlive_length : ∀ (l : List Nat) (ups : List Upstream) (i : Nat),
    (reindexAlive ups l i).length = ups.length := by
  intro l
  induction l with
  | nil => intro ups i; rfl
  | cons a rest ih =>
    intro ups i
    show (reindexAlive _ rest (i + 1)).length = ups.length
    rw [ih, List.length_modify]

/-- Ejection does not change the number of upstreams. -/
theorem set_inactive_ups_length (st : UList) (k : Nat) :
    (rspamd_upstream_set_inactive st k).ups.length = st.ups.length := by
  simp only [rspamd_upstream_set_inactive]
  split <;>
    simp [UList.fire, UList.modifyUp, rspamd_upstream_resolve_addrs,
      List.length_modify, reindexAlive_length]

/-- Ejection does not change the watcher list. -/
theorem set_inactive_watchers (st : UList) (k : Nat) :
    (rspamd_upstream_set_inactive st k).watchers = st.watchers := by
  simp only [rspamd_upstream_set_inactive]
  split <;> rfl

/-- Fail does not change the number of upstreams. -/
theorem fail_ups_length (st : UList) (k : Nat) (af : Bool) (now : ℚ) :
    (rspamd_upstream_fail st k af now).ups.length = st.ups.length := by
  simp only [rspamd_upstream_fail]
  repeat' split
  all_goals first
    | rfl
    | (simp [UList.fire, UList.modifyUp, rspamd_upstream_resolve_addrs,
        List.length_modify, set_inactive_ups_length])

/-- Fail does not change the watcher list. -/
theorem fail_watchers (st : UList) (k : Nat) (af : Bool) (now : ℚ) :
    (rspamd_upstream_fail st k af now).watchers = st.watchers := by
  simp only [rspamd_upstream_fail]
  repeat' split
  all_goals first
    | rfl
    | (simp [UList.fire, UList.modifyUp, rspamd_upstream_resolve_addrs,
        set_inactive_watchers])

/-- One Fail against a singleton list adds no OFFLINE invocation to the
log. -/
theorem fail_no_offline_singleton (st : UList) (k : Nat) (af : Bool) (now : ℚ)
    (h1 : st.ups.length = 1) :
    ∀ ev ∈ (rspamd_upstream_fail st k af now).log, offlineEvent ev → ev ∈ st.log := by
  simp only [rspamd_upstream_fail]
  repeat' split
  all_goals first
    | (exfalso
       rename_i hgt
       simp only [UList.fire, UList.modifyUp, List.length_modify] at hgt
       omega)
    | (intro ev hev hoff
       obtain ⟨a, c, rfl⟩ := hoff
       try simp only [UList.fire, UList.modifyUp, rspamd_upstream_resolve_addrs,
         List.mem_append, List.mem_map, List.mem_singleton, List.mem_filter,
         UEvent.watch.injEq] at hev
       first
       | exact hev
       | tauto)

/-- Any sequence of Fails against a singleton list keeps `alive` unchanged
and fires no OFFLINE event. -/
theorem failSeq_singleton (k : Nat) :
    ∀ (inputs : List (Bool × ℚ)) (st : UList), st.ups.length = 1 →
      (failSeq st k inputs).alive = st.alive ∧
      (∀ ev ∈ (failSeq st k inputs).log, offlineEvent ev → ev ∈ st.log) := by
  intro inputs
  induction inputs with
  | nil => exact fun st _ => ⟨rfl, fun ev hev _ => hev⟩
  | cons x rest ih =>
    intro st h1
    have h1' : (rspamd_upstream_fail st k x.1 x.2).ups.length = 1 := by
      rw [fail_ups_length]; exact h1
    have hr := ih (rspamd_upstream_fail st k x.1 x.2) h1'
    constructor
    · show (failSeq (rspamd_upstream_fail st k x.1 x.2) k rest).alive = st.alive
      rw [hr.1, fail_alive_singleton st k x.1 x.2 h1]
    · intro ev hev hoff
      exact fail_no_offline_singleton st k x.1 x.2 h1 ev (hr.2 ev hev hoff) hoff

/-- Projection helpers: firing watchers only touches the log. -/
theorem fire_upAt (s : UList) (a : Nat) (e : WEvent) (c : Nat) (p : Nat) :
    (UList.fire s a e c).upAt p = s.upAt p := rfl

/-- Limits are untouched by watcher firing. -/
theorem fire_limits (s : UList) (a : Nat) (e : WEvent) (c : Nat) :
    (UList.fire s a e c).limits = s.limits := rfl

/-- Limits are untouched by in-place upstream mutation. -/
theorem modifyUp_limits (s : UList) (a : Nat) (f : Upstream → Upstream) :
    (s.modifyUp a f).limits = s.limits := rfl

/-- Reset branch of Fail on a singleton list: with an accumulated error
window whose rate exceeds the limit and more than `revive_time` elapsed
since the first failure, errors are cleared and the resolve path is
invoked. -/
theorem fail_singleton_reset (st : UList) (k : Nat) (af : Bool) (now : ℚ)
    (h1 : st.ups.length = 1)
    (hctx : st.hasCtx = true) (hact : (st.upAt k).active_idx ≠ -1)
    (herr : (st.upAt k).errors ≠ 0) (hgt : now > (st.upAt k).last_fail)
    (hrate : (((st.upAt k).errors : ℚ) + 1) / (now - (st.upAt k).last_fail) >
      (st.limits.max_errors : ℚ) / st.limits.error_time)
    (hrev : now - (st.upAt k).last_fail > st.limits.revive_time) :
    ((rspamd_upstream_fail st k af now).upAt k).errors = 0 ∧
    UEvent.resolve k ∈ (rspamd_upstream_fail st k af now).log := by
  have hklen : k < st.ups.length := by
    by_contra hcon
    apply herr
    show (st.ups.getD k defaultUpstream).errors = 0
    rw [List.getD_eq_getElem?_getD, List.getElem?_eq_none (by omega)]
    rfl
  constructor <;>
  · simp only [rspamd_upstream_fail]
    repeat' split
    all_goals first
      | (exfalso
         rename_i hbr
         exact hbr ⟨hctx, hact⟩)
      | (exfalso
         rename_i hbr
         exact herr hbr)
      | (exfalso
         rename_i hbr
         exact hbr (le_of_lt hgt))
      | (exfalso
         rename_i hbr
         exact hbr hgt)
      | (exfalso
         rename_i hbr
         simp only [UList.fire, UList.modifyUp, List.length_modify] at hbr
         omega)
      | (exfalso
         rename_i hbr
         apply hbr
         simp only [fire_upAt, fire_limits, modifyUp_limits]
         rw [upAt_modifyUp_self st k _ hklen]
         show (((st.upAt k).errors + 1 : Nat) : ℚ) / (now - (st.upAt k).last_fail) >
           (st.limits.max_errors : ℚ) / st.limits.error_time
         push_cast
         exact hrate)
      | (exfalso
         rename_i hbr
         apply hbr
         simp only [fire_limits, modifyUp_limits]
         exact hrev)
      | (simp only [UList.fire, UList.modifyUp, UList.upAt, rspamd_upstream_resolve_addrs]
         repeat rw [getD_modify_self _ k _ defaultUpstream
           (by simpa [List.length_modify] using hklen)]
         try rfl
         done)
      | (simp [UList.fire, UList.modifyUp, rspamd_upstream_resolve_addrs])

/-- Claim C5 (amended): a singleton list never has its only upstream
removed from `alive` by any sequence of Fail calls, and OFFLINE is never
fired; and when a Fail in progress (errors nonzero, clock advanced) finds
the error rate over `max_errors / error_time` AND more than `revive_time`
elapsed since the first failure of the window, errors are reset to 0 and a
DNS re-resolve is triggered instead of ejection.  (The rate condition is
the amendment: the claim as stated promised the reset for every Fail after
`revive_time`, without the rate test.) -/
theorem c5_amended (st : UList) (k : Nat) (h1 : st.ups.length = 1) :
    (∀ inputs : List (Bool × ℚ),
      (failSeq st k inputs).alive = st.alive ∧
      (∀ ev ∈ (failSeq st k inputs).log, offlineEvent ev → ev ∈ st.log)) ∧
    (∀ (af : Bool) (now : ℚ),
      st.hasCtx = true → (st.upAt k).active_idx ≠ -1 →
      (st.upAt k).errors ≠ 0 → now > (st.upAt k).last_fail →
      (((st.upAt k).errors : ℚ) + 1) / (now - (st.upAt k).last_fail) >
        (st.limits.max_errors : ℚ) / st.limits.error_time →
      now - (st.upAt k).last_fail > st.limits.revive_time →
      ((rspamd_upstream_fail st k af now).upAt k).errors = 0 ∧
      UEvent.resolve k ∈ (rspamd_upstream_fail st k af now).log) :=
  ⟨fun inputs => failSeq_singleton k inputs st h1,
   fun af now hctx hact herr hgt hrate hrev =>
     fail_singleton_reset st k af now h1 hctx hact herr hgt hrate hrev⟩

/-- Concrete singleton list for the C5 counterexample: one error recorded
at time 0. -/
def c5St : UList :=
  { ups := [{ defaultUpstream with errors := 1, active_idx := 0, last_fail := 0 }],
    alive := [0], cur_elt := 0, rot_alg := Rotation.master_slave,
    watchers := [⟨true, true, true, true⟩], limits := defaultLimits,
    hasCtx := true, configured := true, log := [] }

/-- Claim C5 is false as stated in its second half: a Fail at time 100 —
more than `revive_time = 60` after the first failure of the window — does
NOT reset errors and does NOT trigger a re-resolve, because the error rate
(2/100) stays below `max_errors / error_time` (4/10): errors advance to 2
and no resolve event is logged. -/
theorem c5_counterexample :
    ((rspamd_upstream_fail c5St 0 false 100).upAt 0).errors = 2 ∧
    UEvent.resolve 0 ∉ (rspamd_upstream_fail c5St 0 false 100).log ∧
    (100 : ℚ) - (c5St.upAt 0).last_fail > c5St.limits.revive_time ∧
    c5St.ups.length = 1 := by
  refine ⟨?_, ?_, ?_, rfl⟩
  · norm_num [rspamd_upstream_fail, c5St, defaultLimits, defaultUpstream,
      UList.fire, UList.modifyUp, UList.upAt, rspamd_upstream_resolve_addrs,
      Watcher.wmatch, List.modify, List.filter]
  · norm_num [rspamd_upstream_fail, c5St, defaultLimits, defaultUpstream,
      UList.fire, UList.modifyUp, UList.upAt, rspamd_upstream_resolve_addrs,
      Watcher.wmatch, List.modify, List.filter]
    decide
  · norm_num [c5St, defaultLimits, defaultUpstream, UList.upAt]

/-- Concrete singleton list exercising the amended reset branch of C5:
thirty errors accumulated since time 0. -/
def c5StR : UList :=
  { ups := [{ defaultUpstream with errors := 30, active_idx := 0, last_fail := 0 }],
    alive := [0], cur_elt := 0, rot_alg := Rotation.master_slave,
    watchers := [⟨true, true, true, true⟩], limits := defaultLimits,
    hasCtx := true, configured := true, log := [] }

/-- Witness for C5 (amended) at concrete inputs: a sample Fail sequence
leaves the singleton alive array unchanged, and a Fail at time 70 with 30
accumulated errors (rate 31/70 > 4/10, elapsed 70 > 60) resets errors and
logs a resolve. -/
theorem c5_witness :
    c5StR.ups.length = 1 ∧
    (failSeq c5StR 0 [(false, 1), (true, 2)]).alive = c5StR.alive ∧
    ((rspamd_upstream_fail c5StR 0 false 70).upAt 0).errors = 0 ∧
    UEvent.resolve 0 ∈ (rspamd_upstream_fail c5StR 0 false 70).log := by
  have h := c5_amended c5StR 0 rfl
  have hb := h.2 false 70 rfl (by decide) (by decide)
    (by norm_num [c5StR, defaultUpstream, defaultLimits, UList.upAt])
    (by norm_num [c5StR, defaultUpstream, defaultLimits, UList.upAt])
    (by norm_num [c5StR, defaultUpstream, defaultLimits, UList.upAt])
  exact ⟨rfl, (h.1 [(false, 1), (true, 2)]).1, hb.1, hb.2⟩

/-! ## Claim C1: ejection fires OFFLINE with the already-cleared count -/

/-- Modify with an errors-preserving function keeps every `getD`-read error
count. -/
theorem getD_modify_errors_pres (l : List Upstream) (a k : Nat) (f : Upstream → Upstream)
    (hf : ∀ u, (f u).errors = u.errors) :
    ((List.modify f a l).getD k defaultUpstream).errors =
      (l.getD k defaultUpstream).errors := by
  by_cases hak : a = k
  · subst hak
    by_cases hk : a < l.length
    · rw [getD_modify_self l a f defaultUpstream hk, hf]
    · rw [List.modify_eq_self (by omega)]
  · rw [getD_modify_ne l a k f defaultUpstream hak]

/-- Index repair never touches error counts. -/
theorem reindexAlive_errors : ∀ (l : List Nat) (ups : List Upstream) (i k : Nat),
    ((reindexAlive ups l i).getD k defaultUpstream).errors =
      (ups.getD k defaultUpstream).errors := by
  intro l
  induction l with
  | nil => intro ups i k; rfl
  | cons a rest ih =>
    intro ups i k
    show ((reindexAlive _ rest (i + 1)).getD k defaultUpstream).errors = _
    rw [ih, getD_modify_errors_pres]
    exact fun u => rfl

/-- Ejection never changes the ejected upstream's error count (which the
caller has typically just cleared). -/
theorem set_inactive_getD_errors (X : UList) (k : Nat) :
    ((rspamd_upstream_set_inactive X k).ups.getD k defaultUpstream).errors =
      (X.ups.getD k defaultUpstream).errors := by
  simp only [rspamd_upstream_set_inactive, UList.fire, UList.modifyUp, UList.upAt,
    rspamd_upstream_resolve_addrs]
  split
  · rw [getD_modify_errors_pres, reindexAlive_errors, getD_modify_errors_pres]
    all_goals exact fun u => rfl
  · rw [reindexAlive_errors, getD_modify_errors_pres]
    exact fun u => rfl

/-- Alive array after ejection: erased at the recorded index. -/
theorem set_inactive_alive (X : UList) (k : Nat) :
    (rspamd_upstream_set_inactive X k).alive =
      X.alive.eraseIdx (X.upAt k).active_idx.toNat := by
  simp only [rspamd_upstream_set_inactive]
  split <;> rfl

/-- Log after ejection: on a context-carrying list a resolve entry, then in
every case one OFFLINE entry per subscribed watcher, with the upstream's
current (unchanged) error count. -/
theorem set_inactive_log (X : UList) (k : Nat) :
    (rspamd_upstream_set_inactive X k).log =
      (if X.hasCtx = true then X.log ++ [UEvent.resolve k] else X.log) ++
        (X.watchers.filter (fun w => w.wmatch WEvent.offline)).map
          (fun _ => UEvent.watch k WEvent.offline ((X.ups.getD k defaultUpstream)).errors) := by
  simp only [rspamd_upstream_set_inactive, UList.fire, UList.modifyUp, UList.upAt,
    rspamd_upstream_resolve_addrs]
  split
  · rw [getD_modify_errors_pres, reindexAlive_errors, getD_modify_errors_pres]
    all_goals exact fun u => rfl
  · rw [reindexAlive_errors, getD_modify_errors_pres]
    exact fun u => rfl

/-- A Fail that ejects (errors nonzero, clock not behind, rate over the
limit when the clock advanced, more than one upstream) removes the failed
upstream from the alive array within the same call. -/
theorem fail_eject_not_mem (st : UList) (k : Nat) (af : Bool) (now : ℚ)
    (hwf : st.wf) (hk : k < st.ups.length)
    (hctx : st.hasCtx = true) (hact : (st.upAt k).active_idx ≠ -1)
    (herr : (st.upAt k).errors ≠ 0) (hge : now ≥ (st.upAt k).last_fail)
    (hrate : now > (st.upAt k).last_fail →
      (((st.upAt k).errors : ℚ) + 1) / (now - (st.upAt k).last_fail) >
        (st.limits.max_errors : ℚ) / st.limits.error_time)
    (hups : st.ups.length > 1) :
    k ∉ (rspamd_upstream_fail st k af now).alive := by
  have hmem : k ∈ st.alive := by
    by_contra hcon
    exact hact (hwf.2.2.2 k (List.mem_range.mpr hk) hcon)
  obtain ⟨q, hq, hAq⟩ := List.getElem_of_mem hmem
  have hidxq : (st.upAt k).active_idx = (q : Int) :=
    wf_active_idx_eq st hwf k q hq hAq
  have hgoal1 : k ∉ st.alive.eraseIdx ((st.upAt k).active_idx.toNat) := by
    rw [hidxq, Int.toNat_natCast, ← hAq]
    exact getElem_not_mem_eraseIdx st.alive hwf.1 q hq
  simp only [rspamd_upstream_fail]
  repeat' split
  all_goals first
    | (exfalso
       rename_i hbr
       exact hbr ⟨hctx, hact⟩)
    | (exfalso
       rename_i hbr
       exact herr hbr)
    | (exfalso
       rename_i hbr
       exact hbr hge)
    | (exfalso
       rename_i hgt hbr
       apply hbr
       simp only [fire_upAt, fire_limits, modifyUp_limits]
       rw [upAt_modifyUp_self st k _ hk]
       show (((st.upAt k).errors + 1 : Nat) : ℚ) / (now - (st.upAt k).last_fail) >
         (st.limits.max_errors : ℚ) / st.limits.error_time
       push_cast
       exact hrate hgt)
    | (exfalso
       rename_i hbr
       apply hbr
       norm_num
       done)
    | (exfalso
       rename_i hbr
       simp only [UList.fire, UList.modifyUp, List.length_modify] at hbr
       omega)
    | (exfalso
       rename_i hbr h2
       simp only [UList.fire, UList.modifyUp, List.length_modify] at hbr
       omega)
    | (simp only [UList.modifyUp, UList.fire, UList.upAt]
       rw [set_inactive_alive]
       simp only [UList.modifyUp, UList.fire, UList.upAt]
       repeat rw [getD_modify_self _ k _ defaultUpstream
         (by simpa [List.length_modify] using hk)]
       exact hgoal1)

/-- A Fail that ejects leaves the failed upstream's error count at 0: the
counter is cleared before `set_inactive` runs. -/
theorem fail_eject_errors (st : UList) (k : Nat) (af : Bool) (now : ℚ)
    (hk : k < st.ups.length)
    (hctx : st.hasCtx = true) (hact : (st.upAt k).active_idx ≠ -1)
    (herr : (st.upAt k).errors ≠ 0) (hge : now ≥ (st.upAt k).last_fail)
    (hrate : now > (st.upAt k).last_fail →
      (((st.upAt k).errors : ℚ) + 1) / (now - (st.upAt k).last_fail) >
        (st.limits.max_errors : ℚ) / st.limits.error_time)
    (hups : st.ups.length > 1) :
    ((rspamd_upstream_fail st k af now).upAt k).errors = 0 := by
  simp only [rspamd_upstream_fail]
  repeat' split
  all_goals first
    | (exfalso
       rename_i hbr
       exact hbr ⟨hctx, hact⟩)
    | (exfalso
       rename_i hbr
       exact herr hbr)
    | (exfalso
       rename_i hbr
       exact hbr hge)
    | (exfalso
       rename_i hgt hbr
       apply hbr
       simp only [fire_upAt, fire_limits, modifyUp_limits]
       rw [upAt_modifyUp_self st k _ hk]
       show (((st.upAt k).errors + 1 : Nat) : ℚ) / (now - (st.upAt k).last_fail) >
         (st.limits.max_errors : ℚ) / st.limits.error_time
       push_cast
       exact hrate hgt)
    | (exfalso
       rename_i hbr
       apply hbr
       norm_num
       done)
    | (exfalso
       rename_i hbr
       simp only [UList.fire, UList.modifyUp, List.length_modify] at hbr
       omega)
    | (exfalso
       rename_i hbr h2
       simp only [UList.fire, UList.modifyUp, List.length_modify] at hbr
       omega)
    | (simp only [UList.modifyUp, UList.fire, UList.upAt]
       try rw [getD_modify_self _ k _ defaultUpstream
         (by simp only [set_inactive_ups_length, UList.fire, UList.modifyUp,
               List.length_modify]
             exact hk)]
       show ((rspamd_upstream_set_inactive _ k).ups.getD k defaultUpstream).errors = 0
       rw [set_inactive_getD_errors]
       simp only [UList.fire, UList.modifyUp]
       repeat rw [getD_modify_self _ k _ defaultUpstream
         (by simpa [List.length_modify] using hk)]
       try rfl
       done)

/-- A Fail that ejects logs, in order: one FAILURE entry per subscribed
watcher carrying the incremented count, the DNS re-resolve, and one OFFLINE
entry per subscribed watcher carrying count 0 — the error count was cleared
just before ejection, so watchers never see the count at ejection. -/
theorem fail_eject_log (st : UList) (k : Nat) (af : Bool) (now : ℚ)
    (hk : k < st.ups.length)
    (hctx : st.hasCtx = true) (hact : (st.upAt k).active_idx ≠ -1)
    (herr : (st.upAt k).errors ≠ 0) (hge : now ≥ (st.upAt k).last_fail)
    (hrate : now > (st.upAt k).last_fail →
      (((st.upAt k).errors : ℚ) + 1) / (now - (st.upAt k).last_fail) >
        (st.limits.max_errors : ℚ) / st.limits.error_time)
    (hups : st.ups.length > 1) :
    (rspamd_upstream_fail st k af now).log =
      st.log ++
        (st.watchers.filter (fun w => w.wmatch WEvent.failure)).map
          (fun _ => UEvent.watch k WEvent.failure ((st.upAt k).errors + 1)) ++
        [UEvent.resolve k] ++
        (st.watchers.filter (fun w => w.wmatch WEvent.offline)).map
          (fun _ => UEvent.watch k WEvent.offline 0) := by
  simp only [rspamd_upstream_fail]
  repeat' split
  all_goals first
    | (exfalso
       rename_i hbr
       exact hbr ⟨hctx, hact⟩)
    | (exfalso
       rename_i hbr
       exact herr hbr)
    | (exfalso
       rename_i hbr
       exact hbr hge)
    | (exfalso
       rename_i hgt hbr
       apply hbr
       simp only [fire_upAt, fire_limits, modifyUp_limits]
       rw [upAt_modifyUp_self st k _ hk]
       show (((st.upAt k).errors + 1 : Nat) : ℚ) / (now - (st.upAt k).last_fail) >
         (st.limits.max_errors : ℚ) / st.limits.error_time
       push_cast
       exact hrate hgt)
    | (exfalso
       rename_i hbr
       apply hbr
       norm_num
       done)
    | (exfalso
       rename_i hbr
       simp only [UList.fire, UList.modifyUp, List.length_modify] at hbr
       omega)
    | (exfalso
       rename_i hbr h2
       simp only [UList.fire, UList.modifyUp, List.length_modify] at hbr
       omega)
    | (simp only [set_inactive_log, UList.modifyUp, UList.fire, UList.upAt]
       rw [if_pos hctx]
       repeat rw [getD_modify_self _ k _ defaultUpstream
         (by simpa [List.length_modify] using hk)]
       try rfl
       done)

/-- Claim C1 (amended): when Fail ejects an upstream (errors nonzero, clock
not behind `last_fail`, error rate above `max_errors / error_time` whenever
the clock strictly advanced, and more than one upstream in `ups`), the
upstream is removed from `alive` within the same call, but the OFFLINE
watchers are invoked with count 0 — `up->errors` is cleared before
`set_inactive` fires them — not with the error count at ejection.  The log
gains the FAILURE entries (incremented count), the re-resolve, and the
OFFLINE entries with count 0, in that order. -/
theorem c1_amended (st : UList) (k : Nat) (af : Bool) (now : ℚ)
    (hwf : st.wf) (hk : k < st.ups.length)
    (hctx : st.hasCtx = true) (hact : (st.upAt k).active_idx ≠ -1)
    (herr : (st.upAt k).errors ≠ 0) (hge : now ≥ (st.upAt k).last_fail)
    (hrate : now > (st.upAt k).last_fail →
      (((st.upAt k).errors : ℚ) + 1) / (now - (st.upAt k).last_fail) >
        (st.limits.max_errors : ℚ) / st.limits.error_time)
    (hups : st.ups.length > 1) :
    k ∉ (rspamd_upstream_fail st k af now).alive ∧
    ((rspamd_upstream_fail st k af now).upAt k).errors = 0 ∧
    (rspamd_upstream_fail st k af now).log =
      st.log ++
        (st.watchers.filter (fun w => w.wmatch WEvent.failure)).map
          (fun _ => UEvent.watch k WEvent.failure ((st.upAt k).errors + 1)) ++
        [UEvent.resolve k] ++
        (st.watchers.filter (fun w => w.wmatch WEvent.offline)).map
          (fun _ => UEvent.watch k WEvent.offline 0) :=
  ⟨fail_eject_not_mem st k af now hwf hk hctx hact herr hge hrate hups,
   fail_eject_errors st k af now hk hctx hact herr hge hrate hups,
   fail_eject_log st k af now hk hctx hact herr hge hrate hups⟩

/-- Two upstreams with one all-events watcher, default limits, for the C1
counterexample. -/
def c1St : UList :=
  { ups := [{ defaultUpstream with active_idx := 0 },
            { defaultUpstream with active_idx := 1 }],
    alive := [0, 1], cur_elt := 0, rot_alg := Rotation.master_slave,
    watchers := [⟨true, true, true, true⟩], limits := defaultLimits,
    hasCtx := true, configured := true, log := [] }

/-- Claim C1 is false as stated: two rapid Fails against upstream 0 of a
two-upstream list (errors reach 2, rate 2/1 > 4/10) eject it from `alive`,
but OFFLINE fires with count 0, not with the error count 2 at ejection —
the counter is zeroed before `set_inactive` invokes the watchers. -/
theorem c1_counterexample :
    UEvent.watch 0 WEvent.failure 2 ∈
      (rspamd_upstream_fail (rspamd_upstream_fail c1St 0 false 0) 0 false 1).log ∧
    UEvent.watch 0 WEvent.offline 0 ∈
      (rspamd_upstream_fail (rspamd_upstream_fail c1St 0 false 0) 0 false 1).log ∧
    UEvent.watch 0 WEvent.offline 2 ∉
      (rspamd_upstream_fail (rspamd_upstream_fail c1St 0 false 0) 0 false 1).log ∧
    0 ∉ (rspamd_upstream_fail (rspamd_upstream_fail c1St 0 false 0) 0 false 1).alive := by
  norm_num [rspamd_upstream_fail, c1St, defaultLimits, defaultUpstream, UList.fire,
    UList.modifyUp, UList.upAt, rspamd_upstream_resolve_addrs,
    rspamd_upstream_set_inactive, reindexAlive, Watcher.wmatch, List.modify,
    List.filter]
  decide

/-- Two upstreams, upstream 0 already carrying one error from time 0, for
the C1 witness. -/
def c1WSt : UList :=
  { ups := [{ defaultUpstream with errors := 1, active_idx := 0, last_fail := 0 },
            { defaultUpstream with active_idx := 1 }],
    alive := [0, 1], cur_elt := 0, rot_alg := Rotation.master_slave,
    watchers := [⟨true, true, true, true⟩], limits := defaultLimits,
    hasCtx := true, configured := true, log := [] }

/-- Witness for C1 (amended) at concrete inputs: a Fail at time 1 against
upstream 0 (rate 2/1 > 4/10, two upstreams) ejects it from alive, leaves
its error count at 0 and logs FAILURE(2), the re-resolve and OFFLINE(0). -/
theorem c1_witness :
    0 ∉ (rspamd_upstream_fail c1WSt 0 false 1).alive ∧
    ((rspamd_upstream_fail c1WSt 0 false 1).upAt 0).errors = 0 ∧
    (rspamd_upstream_fail c1WSt 0 false 1).log =
      c1WSt.log ++
        (c1WSt.watchers.filter (fun w => w.wmatch WEvent.failure)).map
          (fun _ => UEvent.watch 0 WEvent.failure ((c1WSt.upAt 0).errors + 1)) ++
        [UEvent.resolve 0] ++
        (c1WSt.watchers.filter (fun w => w.wmatch WEvent.offline)).map
          (fun _ => UEvent.watch 0 WEvent.offline 0) :=
  c1_amended c1WSt 0 false 1 (by decide) (by decide) rfl (by decide) (by decide)
    (by norm_num [c1WSt, UList.upAt, defaultUpstream])
    (fun _ => by norm_num [c1WSt, UList.upAt, defaultUpstream, defaultLimits])
    (by decide)

/-! ## Claim C2: mass restore on empty alive, and pick existence -/

/-- Modify with a `g`-preserving function keeps every `getD`-read `g`
projection. -/
theorem getD_modify_proj {α : Type} (g : Upstream → α) (l : List Upstream) (a k : Nat)
    (f : Upstream → Upstream) (hf : ∀ u, g (f u) = g u) :
    g ((List.modify f a l).getD k defaultUpstream) = g (l.getD k defaultUpstream) := by
  by_cases hak : a = k
  · subst hak
    by_cases hk : a < l.length
    · rw [getD_modify_self l a f defaultUpstream hk, hf]
    · rw [List.modify_eq_self (by omega)]
  · rw [getD_modify_ne l a k f defaultUpstream hak]

/-- Restore appends the upstream to `alive`. -/
theorem restore_cb_alive (st : UList) (k : Nat) :
    (rspamd_upstream_restore_cb st k).alive = st.alive ++ [k] := rfl

/-- Restore keeps the number of upstreams. -/
theorem restore_cb_ups_length (st : UList) (k : Nat) :
    (rspamd_upstream_restore_cb st k).ups.length = st.ups.length := by
  simp [rspamd_upstream_restore_cb, UList.fire, UList.modifyUp, List.length_modify]

/-- Restore keeps the watcher list. -/
theorem restore_cb_watchers (st : UList) (k : Nat) :
    (rspamd_upstream_restore_cb st k).watchers = st.watchers := rfl

/-- Restore keeps the sequential cursor. -/
theorem restore_cb_cur_elt (st : UList) (k : Nat) :
    (rspamd_upstream_restore_cb st k).cur_elt = st.cur_elt := rfl

/-- Restore keeps the rotation algorithm. -/
theorem restore_cb_rot_alg (st : UList) (k : Nat) :
    (rspamd_upstream_restore_cb st k).rot_alg = st.rot_alg := rfl

/-- Restore touches only `timer` and `active_idx` of the upstream records:
any projection blind to those two fields is preserved at every index. -/
theorem restore_cb_upAt_proj {α : Type} (g : Upstream → α) (st : UList) (k j : Nat)
    (h1 : ∀ u, g { u with timer := none } = g u)
    (h2 : ∀ u i, g { u with active_idx := i } = g u) :
    g ((rspamd_upstream_restore_cb st k).upAt j) = g (st.upAt j) := by
  simp only [rspamd_upstream_restore_cb, UList.fire, UList.modifyUp, UList.upAt]
  rw [getD_modify_proj g _ _ _ _ (fun u => h2 u _), getD_modify_proj g _ _ _ _ h1]

/-- Restore leaves every other upstream record untouched. -/
theorem restore_cb_upAt_ne (st : UList) (k j : Nat) (hjk : j ≠ k) :
    (rspamd_upstream_restore_cb st k).upAt j = st.upAt j := by
  simp only [rspamd_upstream_restore_cb, UList.fire, UList.modifyUp, UList.upAt]
  rw [getD_modify_ne _ _ _ _ _ (Ne.symm hjk), getD_modify_ne _ _ _ _ _ (Ne.symm hjk)]

/-- Restore cancels the restored upstream's timer. -/
theorem restore_cb_upAt_timer (st : UList) (k : Nat) :
    ((rspamd_upstream_restore_cb st k).upAt k).timer = none := by
  simp only [rspamd_upstream_restore_cb, UList.fire, UList.modifyUp, UList.upAt]
  by_cases hk : k < st.ups.length
  · rw [getD_modify_self _ k _ defaultUpstream (by simpa [List.length_modify] using hk),
      getD_modify_self _ k _ defaultUpstream hk]
  · rw [List.modify_eq_self (by simp [List.length_modify]; omega),
      List.modify_eq_self (by omega),
      List.getD_eq_getElem?_getD, List.getElem?_eq_none (by omega)]
    rfl

/-- Restore appends one ONLINE entry per subscribed watcher, carrying the
restored upstream's (unchanged) error count. -/
theorem restore_cb_log (st : UList) (k : Nat) :
    (rspamd_upstream_restore_cb st k).log = st.log ++
      (st.watchers.filter (fun w => w.wmatch WEvent.online)).map
        (fun _ => UEvent.watch k WEvent.online ((st.upAt k).errors)) := by
  simp only [rspamd_upstream_restore_cb, UList.fire, UList.modifyUp, UList.upAt]
  rw [getD_modify_proj (fun u => u.errors), getD_modify_proj (fun u => u.errors)]
  all_goals exact fun u => rfl

/-- Folding restore over a list of indices: `alive` gains the indices in
order, the scalar list fields and every record projection other than
`timer`/`active_idx` are preserved, untouched indices keep their records,
the log gains the ONLINE entries in order, and (for duplicate-free input)
every restored upstream's timer is cancelled. -/
theorem restore_fold (l : List Nat) : ∀ (st : UList),
    (l.foldl rspamd_upstream_restore_cb st).alive = st.alive ++ l ∧
    (l.foldl rspamd_upstream_restore_cb st).ups.length = st.ups.length ∧
    (l.foldl rspamd_upstream_restore_cb st).watchers = st.watchers ∧
    (l.foldl rspamd_upstream_restore_cb st).cur_elt = st.cur_elt ∧
    (l.foldl rspamd_upstream_restore_cb st).rot_alg = st.rot_alg ∧
    (∀ j, ((l.foldl rspamd_upstream_restore_cb st).upAt j).errors = (st.upAt j).errors) ∧
    (∀ j, ((l.foldl rspamd_upstream_restore_cb st).upAt j).checked = (st.upAt j).checked) ∧
    (∀ j, ((l.foldl rspamd_upstream_restore_cb st).upAt j).weight = (st.upAt j).weight) ∧
    (∀ j, ((l.foldl rspamd_upstream_restore_cb st).upAt j).cur_weight =
      (st.upAt j).cur_weight) ∧
    (∀ j, j ∉ l → (l.foldl rspamd_upstream_restore_cb st).upAt j = st.upAt j) ∧
    (l.foldl rspamd_upstream_restore_cb st).log = st.log ++
      l.flatMap (fun j =>
        (st.watchers.filter (fun w => w.wmatch WEvent.online)).map
          (fun _ => UEvent.watch j WEvent.online ((st.upAt j).errors))) ∧
    (l.Nodup → ∀ j ∈ l, ((l.foldl rspamd_upstream_restore_cb st).upAt j).timer = none) := by
  induction l with
  | nil =>
    intro st
    exact ⟨by simp, rfl, rfl, rfl, rfl, fun j => rfl, fun j => rfl, fun j => rfl,
      fun j => rfl, fun j _ => rfl, by simp, fun _ j hj => absurd hj (List.not_mem_nil j)⟩
  | cons a rest ih =>
    intro st
    obtain ⟨i1, i2, i3, i4, i5, i6, i7, i8, i9, i10, i11, i12⟩ :=
      ih (rspamd_upstream_restore_cb st a)
    have e6 : ∀ j, ((rspamd_upstream_restore_cb st a).upAt j).errors = (st.upAt j).errors :=
      fun j => restore_cb_upAt_proj (fun u => u.errors) st a j (fun u => rfl) (fun u i => rfl)
    have e7 : ∀ j, ((rspamd_upstream_restore_cb st a).upAt j).checked = (st.upAt j).checked :=
      fun j => restore_cb_upAt_proj (fun u => u.checked) st a j (fun u => rfl) (fun u i => rfl)
    have e8 : ∀ j, ((rspamd_upstream_restore_cb st a).upAt j).weight = (st.upAt j).weight :=
      fun j => restore_cb_upAt_proj (fun u => u.weight) st a j (fun u => rfl) (fun u i => rfl)
    have e9 : ∀ j, ((rspamd_upstream_restore_cb st a).upAt j).cur_weight =
        (st.upAt j).cur_weight :=
      fun j => restore_cb_upAt_proj (fun u => u.cur_weight) st a j (fun u => rfl) (fun u i => rfl)
    refine ⟨?_, ?_, ?_, ?_, ?_, ?_, ?_, ?_, ?_, ?_, ?_, ?_⟩
    · rw [List.foldl_cons, i1, restore_cb_alive]
      simp
    · rw [List.foldl_cons, i2, restore_cb_ups_length]
    · rw [List.foldl_cons, i3, restore_cb_watchers]
    · rw [List.foldl_cons, i4, restore_cb_cur_elt]
    · rw [List.foldl_cons, i5, restore_cb_rot_alg]
    · intro j; rw [List.foldl_cons, i6 j, e6 j]
    · intro j; rw [List.foldl_cons, i7 j, e7 j]
    · intro j; rw [List.foldl_cons, i8 j, e8 j]
    · intro j; rw [List.foldl_cons, i9 j, e9 j]
    · intro j hj
      rw [List.foldl_cons, i10 j (fun hmem => hj (List.mem_cons_of_mem a hmem)),
        restore_cb_upAt_ne st a j (fun hja => hj (hja ▸ List.mem_cons_self a rest))]
    · rw [List.foldl_cons, i11, restore_cb_log, restore_cb_watchers]
      simp only [e6]
      simp [List.flatMap_cons, List.append_assoc]
    · intro hnd j hj
      rw [List.foldl_cons]
      rcases List.mem_cons.mp hj with hja | hjr
      · subst hja
        rw [i10 j (List.Nodup.not_mem (by simpa using hnd))]
        exact restore_cb_upAt_timer st j
      · exact i12 (List.Nodup.of_cons hnd) j hjr

/-- The scan never clears the fallback selection. -/
theorem rrScanStep_mcs_mono (st : UList) (use_cur : Bool) (acc : RRAcc) (k : Nat)
    (h : acc.min_checked_sel.isSome) :
    (rrScanStep st use_cur acc k).min_checked_sel.isSome := by
  simp only [rrScanStep]
  repeat' split
  all_goals simpa using h

/-- The scan never clears the weight selection. -/
theorem rrScanStep_sel_mono (st : UList) (use_cur : Bool) (acc : RRAcc) (k : Nat)
    (h : acc.selected.isSome) :
    (rrScanStep st use_cur acc k).selected.isSome := by
  simp only [rrScanStep]
  repeat' split
  all_goals simpa using h

/-- If the fallback is still unset after a step, the tracker did not move. -/
theorem rrScanStep_mcs_none (st : UList) (use_cur : Bool) (acc : RRAcc) (k : Nat)
    (h : (rrScanStep st use_cur acc k).min_checked_sel = none) :
    (rrScanStep st use_cur acc k).min_checked = acc.min_checked ∧
      acc.min_checked_sel = none := by
  revert h
  simp only [rrScanStep]
  repeat' split
  all_goals intro h
  all_goals simp_all

/-- If the weight selection is still unset after a step, the maximum did
not move. -/
theorem rrScanStep_sel_none (st : UList) (use_cur : Bool) (acc : RRAcc) (k : Nat)
    (h : (rrScanStep st use_cur acc k).selected = none) :
    (rrScanStep st use_cur acc k).max_weight = acc.max_weight ∧
      acc.selected = none := by
  revert h
  simp only [rrScanStep]
  repeat' split
  all_goals intro h
  all_goals simp_all

/-- A product strictly below the current tracker forces the fallback to be
set at this step. -/
theorem rrScanStep_mcs_set (st : UList) (use_cur : Bool) (acc : RRAcc) (k : Nat)
    (h : (st.upAt k).checked * ((st.upAt k).errors + 1) % 2 ^ 32 < acc.min_checked) :
    (rrScanStep st use_cur acc k).min_checked_sel = some k := by
  simp only [rrScanStep]
  repeat' split
  all_goals simp_all

/-- Fold version of fallback monotonicity. -/
theorem rrFold_mcs_mono (st : UList) (use_cur : Bool) :
    ∀ (l : List Nat) (acc : RRAcc), acc.min_checked_sel.isSome →
      (l.foldl (rrScanStep st use_cur) acc).min_checked_sel.isSome := by
  intro l
  induction l with
  | nil => intro acc h; exact h
  | cons a rest ih =>
    intro acc h
    exact ih _ (rrScanStep_mcs_mono st use_cur acc a h)

/-- Fold version of weight-selection monotonicity. -/
theorem rrFold_sel_mono (st : UList) (use_cur : Bool) :
    ∀ (l : List Nat) (acc : RRAcc), acc.selected.isSome →
      (l.foldl (rrScanStep st use_cur) acc).selected.isSome := by
  intro l
  induction l with
  | nil => intro acc h; exact h
  | cons a rest ih =>
    intro acc h
    exact ih _ (rrScanStep_sel_mono st use_cur acc a h)

/-- Any scanned upstream whose `checked * (errors + 1)` product (mod 2^32)
is below the incoming tracker forces the final fallback to be set. -/
theorem rrFold_mcs_some (st : UList) (use_cur : Bool) :
    ∀ (l : List Nat) (acc : RRAcc), acc.min_checked_sel = none →
      (∃ k ∈ l, (st.upAt k).checked * ((st.upAt k).errors + 1) % 2 ^ 32 < acc.min_checked) →
      (l.foldl (rrScanStep st use_cur) acc).min_checked_sel.isSome := by
  intro l
  induction l with
  | nil =>
    intro acc _ hex
    exact absurd hex (by simp)
  | cons a rest ih =>
    intro acc hnone hex
    rcases hex with ⟨k, hk, hprod⟩
    rcases List.mem_cons.mp hk with hka | hkr
    · subst hka
      exact rrFold_mcs_mono st use_cur rest _
        (by rw [rrScanStep_mcs_set st use_cur acc k hprod]; rfl)
    · cases hsel : (rrScanStep st use_cur acc a).min_checked_sel with
      | some s =>
        exact rrFold_mcs_mono st use_cur rest _ (by rw [hsel]; rfl)
      | none =>
        have hstep := rrScanStep_mcs_none st use_cur acc a hsel
        exact ih _ hsel ⟨k, hkr, by rw [hstep.1]; exact hprod⟩

/-- If the maximum weight stays zero whenever nothing was selected: scan
invariant carried through the fold. -/
theorem rrFold_sel_inv (st : UList) (use_cur : Bool) :
    ∀ (l : List Nat) (acc : RRAcc),
      (acc.selected = none → acc.max_weight = 0) →
      ((l.foldl (rrScanStep st use_cur) acc).selected = none →
        (l.foldl (rrScanStep st use_cur) acc).max_weight = 0) := by
  intro l
  induction l with
  | nil => intro acc h; exact h
  | cons a rest ih =>
    intro acc h
    refine ih _ ?_
    intro hnone
    have hstep := rrScanStep_sel_none st use_cur acc a hnone
    rw [hstep.1]
    exact h hstep.2

/-- The round-robin/master-slave pick exists as soon as one alive upstream
has `checked * (errors + 1)` (mod 2^32) below the tracker's initial value
`2^32 - 1`: with all weights zero the fallback is forced, and with a
positive maximum weight the weight selection is forced. -/
theorem rr_isSome (st : UList) (use_cur : Bool)
    (hx : ∃ k ∈ st.alive,
      (st.upAt k).checked * ((st.upAt k).errors + 1) % 2 ^ 32 < 2 ^ 32 - 1) :
    (rspamd_upstream_get_round_robin st use_cur).1.isSome := by
  simp only [rspamd_upstream_get_round_robin]
  set acc := st.alive.foldl (rrScanStep st use_cur) ⟨0, none, 2 ^ 32 - 1, none⟩ with hacc
  by_cases hmw : acc.max_weight = 0
  · have hsome : acc.min_checked_sel.isSome :=
      rrFold_mcs_some st use_cur st.alive ⟨0, none, 2 ^ 32 - 1, none⟩ rfl hx
    cases hsel : acc.min_checked_sel with
    | none => rw [hsel] at hsome; exact absurd hsome (by simp)
    | some s =>
      simp only [hmw, if_pos, hsel]
      rfl
  · cases hsel : acc.selected with
    | none =>
      exact absurd (rrFold_sel_inv st use_cur st.alive _ (fun _ => rfl) hsel) hmw
    | some s =>
      rw [if_neg hmw]
      rfl

/-- Mass restore appends every index `0 … ups.len − 1` to `alive`. -/
theorem restoreAll_alive (st : UList) :
    (restoreAllUpstreams st).alive = st.alive ++ List.range st.ups.length :=
  (restore_fold (List.range st.ups.length) st).1

/-- Mass restore keeps the number of upstreams. -/
theorem restoreAll_ups_length (st : UList) :
    (restoreAllUpstreams st).ups.length = st.ups.length :=
  (restore_fold (List.range st.ups.length) st).2.1

/-- Mass restore keeps the sequential cursor. -/
theorem restoreAll_cur_elt (st : UList) :
    (restoreAllUpstreams st).cur_elt = st.cur_elt :=
  (restore_fold (List.range st.ups.length) st).2.2.2.1

/-- Mass restore keeps the rotation algorithm. -/
theorem restoreAll_rot_alg (st : UList) :
    (restoreAllUpstreams st).rot_alg = st.rot_alg :=
  (restore_fold (List.range st.ups.length) st).2.2.2.2.1

/-- Mass restore keeps every error count. -/
theorem restoreAll_errors (st : UList) (j : Nat) :
    ((restoreAllUpstreams st).upAt j).errors = (st.upAt j).errors :=
  (restore_fold (List.range st.ups.length) st).2.2.2.2.2.1 j

/-- Mass restore keeps every checked counter. -/
theorem restoreAll_checked (st : UList) (j : Nat) :
    ((restoreAllUpstreams st).upAt j).checked = (st.upAt j).checked :=
  (restore_fold (List.range st.ups.length) st).2.2.2.2.2.2.1 j

/-- Mass restore fires ONLINE once per restored upstream, in index order,
with the upstream's error count. -/
theorem restoreAll_log (st : UList) :
    (restoreAllUpstreams st).log = st.log ++
      (List.range st.ups.length).flatMap (fun j =>
        (st.watchers.filter (fun w => w.wmatch WEvent.online)).map
          (fun _ => UEvent.watch j WEvent.online ((st.upAt j).errors))) :=
  (restore_fold (List.range st.ups.length) st).2.2.2.2.2.2.2.2.2.2.1

/-- Mass restore cancels every upstream's timer. -/
theorem restoreAll_timer (st : UList) (j : Nat) (hj : j < st.ups.length) :
    ((restoreAllUpstreams st).upAt j).timer = none :=
  (restore_fold (List.range st.ups.length) st).2.2.2.2.2.2.2.2.2.2.2
    (List.nodup_range _) j (List.mem_range.mpr hj)

/-- The rotation resolved after a mass restore is the one resolved before:
only `rot_alg` is consulted and restore preserves it. -/
theorem resolve_rot_restore (st : UList) (dt : Rotation) (forced hk : Bool) :
    resolveRotationType (restoreAllUpstreams st) dt forced hk =
      resolveRotationType st dt forced hk := by
  simp only [resolveRotationType, restoreAll_rot_alg]

/-- Get on a list with empty `ups` (and hence empty `alive`) returns no
pick, whatever the rotation resolves to. -/
theorem get_none_of_empty (st : UList) (dt : Rotation) (hk : Bool) (khash ridx : Nat)
    (hempty : st.alive = []) (hups : st.ups = []) :
    (rspamd_upstream_get st dt hk khash ridx).1 = none := by
  have hlen : st.ups.length = 0 := by rw [hups]; rfl
  have hlen0 : st.alive.length = 0 := by rw [hempty]; rfl
  have hR : restoreAllUpstreams st = st := by
    unfold restoreAllUpstreams
    rw [hlen]
    rfl
  simp only [rspamd_upstream_get, rspamd_upstream_get_common]
  rw [if_pos hlen0, hR]
  cases hrot : resolveRotationType st dt false hk <;>
    simp [rspamd_upstream_get_hashed, rspamd_upstream_get_random,
      rspamd_upstream_get_round_robin, hempty]

/-- Get on a list with empty `alive` but non-empty `ups`: after the mass
restore the dispatch always finds a pick, provided the resolved rotation is
adequate — in-range cursor for Sequential, in-range oracle for
Random/undef, and for RoundRobin/MasterSlave at least one upstream whose
`checked * (errors + 1)` product (mod 2^32) is below the tracker's initial
value. -/
theorem get_some_of_adequate (st : UList) (dt : Rotation) (hk : Bool) (khash ridx : Nat)
    (hempty : st.alive = []) (hups : st.ups ≠ [])
    (hseq : resolveRotationType st dt false hk = Rotation.sequential →
      st.cur_elt < st.ups.length)
    (hrnd : resolveRotationType st dt false hk = Rotation.random ∨
        resolveRotationType st dt false hk = Rotation.undef → ridx < st.ups.length)
    (hrr : resolveRotationType st dt false hk = Rotation.round_robin ∨
        resolveRotationType st dt false hk = Rotation.master_slave →
      ∃ k ∈ List.range st.ups.length,
        (st.upAt k).checked * ((st.upAt k).errors + 1) % 2 ^ 32 < 2 ^ 32 - 1) :
    (rspamd_upstream_get st dt hk khash ridx).1.isSome := by
  have hn : 0 < st.ups.length := List.length_pos.mpr hups
  have hlen0 : st.alive.length = 0 := by rw [hempty]; rfl
  have hal : (restoreAllUpstreams st).alive = List.range st.ups.length := by
    rw [restoreAll_alive, hempty]
    rfl
  simp only [rspamd_upstream_get, rspamd_upstream_get_common]
  rw [if_pos hlen0, resolve_rot_restore]
  cases hrot : resolveRotationType st dt false hk with
  | undef =>
    have hr : ridx < st.ups.length := hrnd (Or.inr hrot)
    have hpick : (restoreAllUpstreams st).alive[ridx]? = some ridx := by
      rw [hal]
      exact List.getElem?_range hr
    simp [rspamd_upstream_get_random, hpick]
  | random =>
    have hr : ridx < st.ups.length := hrnd (Or.inl hrot)
    have hpick : (restoreAllUpstreams st).alive[ridx]? = some ridx := by
      rw [hal]
      exact List.getElem?_range hr
    simp [rspamd_upstream_get_random, hpick]
  | hashed =>
    have hlt : rspamd_consistent_hash khash (restoreAllUpstreams st).alive.length <
        (restoreAllUpstreams st).alive.length := by
      rw [hal, List.length_range]
      exact rspamd_consistent_hash_lt khash _ hn
    cases hp : (restoreAllUpstreams st).alive[rspamd_consistent_hash khash
        (restoreAllUpstreams st).alive.length]? with
    | none =>
      rw [List.getElem?_eq_getElem hlt] at hp
      exact Option.noConfusion hp
    | some s => simp [rspamd_upstream_get_hashed, hp]
  | round_robin =>
    have hx : ∃ k ∈ (restoreAllUpstreams st).alive,
        ((restoreAllUpstreams st).upAt k).checked *
          (((restoreAllUpstreams st).upAt k).errors + 1) % 2 ^ 32 < 2 ^ 32 - 1 := by
      obtain ⟨k, hk, hkp⟩ := hrr (Or.inl hrot)
      refine ⟨k, by rw [hal]; exact hk, ?_⟩
      rw [restoreAll_checked, restoreAll_errors]
      exact hkp
    have hs := rr_isSome (restoreAllUpstreams st) true hx
    cases hp : (rspamd_upstream_get_round_robin (restoreAllUpstreams st) true).1 with
    | none => rw [hp] at hs; exact absurd hs (by simp)
    | some s => simp [hp]
  | master_slave =>
    have hx : ∃ k ∈ (restoreAllUpstreams st).alive,
        ((restoreAllUpstreams st).upAt k).checked *
          (((restoreAllUpstreams st).upAt k).errors + 1) % 2 ^ 32 < 2 ^ 32 - 1 := by
      obtain ⟨k, hk, hkp⟩ := hrr (Or.inr hrot)
      refine ⟨k, by rw [hal]; exact hk, ?_⟩
      rw [restoreAll_checked, restoreAll_errors]
      exact hkp
    have hs := rr_isSome (restoreAllUpstreams st) false hx
    cases hp : (rspamd_upstream_get_round_robin (restoreAllUpstreams st) false).1 with
    | none => rw [hp] at hs; exact absurd hs (by simp)
    | some s => simp [hp]
  | sequential =>
    have hc : (restoreAllUpstreams st).cur_elt < (restoreAllUpstreams st).alive.length := by
      rw [restoreAll_cur_elt, hal, List.length_range]
      exact hseq hrot
    rw [if_neg (not_le.mpr hc)]
    cases hp : (restoreAllUpstreams st).alive[(restoreAllUpstreams st).cur_elt]? with
    | none =>
      rw [List.getElem?_eq_getElem hc] at hp
      exact Option.noConfusion hp
    | some s => simp [hp]

/-- Claim C2 (amended): on a Get with empty `alive`, every upstream of
`ups` is re-inserted into `alive` (in index order), every timer is
cancelled and ONLINE fires once per restored upstream; a Get on empty `ups`
returns none; and a Get on non-empty `ups` returns a pick provided the
resolved rotation is adequate: Sequential needs the (restore-surviving)
cursor in range — a stale `cur_elt ≥ ups.len` still yields none — the
Random fallback needs an in-range draw, and RoundRobin/MasterSlave need one
upstream whose `checked * (errors + 1)` product (mod 2^32) is below the
tracker's initial value `2^32 - 1`. -/
theorem c2_amended (st : UList) (dt : Rotation) (hk : Bool) (khash ridx : Nat)
    (hempty : st.alive = [])
    (hseq : resolveRotationType st dt false hk = Rotation.sequential →
      st.cur_elt < st.ups.length)
    (hrnd : resolveRotationType st dt false hk = Rotation.random ∨
        resolveRotationType st dt false hk = Rotation.undef → ridx < st.ups.length)
    (hrr : resolveRotationType st dt false hk = Rotation.round_robin ∨
        resolveRotationType st dt false hk = Rotation.master_slave →
      ∃ k ∈ List.range st.ups.length,
        (st.upAt k).checked * ((st.upAt k).errors + 1) % 2 ^ 32 < 2 ^ 32 - 1) :
    (restoreAllUpstreams st).alive = List.range st.ups.length ∧
    (∀ j, j < st.ups.length → ((restoreAllUpstreams st).upAt j).timer = none) ∧
    (restoreAllUpstreams st).log = st.log ++
      (List.range st.ups.length).flatMap (fun j =>
        (st.watchers.filter (fun w => w.wmatch WEvent.online)).map
          (fun _ => UEvent.watch j WEvent.online ((st.upAt j).errors))) ∧
    (st.ups = [] → (rspamd_upstream_get st dt hk khash ridx).1 = none) ∧
    (st.ups ≠ [] → (rspamd_upstream_get st dt hk khash ridx).1.isSome) :=
  ⟨by rw [restoreAll_alive, hempty]; rfl,
   fun j hj => restoreAll_timer st j hj,
   restoreAll_log st,
   fun hupsE => get_none_of_empty st dt hk khash ridx hempty hupsE,
   fun hupsNE => get_some_of_adequate st dt hk khash ridx hempty hupsNE hseq hrnd hrr⟩

/-- Two upstreams, empty `alive`, Sequential rotation with a stale cursor,
for the C2 counterexample. -/
def c2St : UList :=
  { ups := [defaultUpstream, defaultUpstream],
    alive := [], cur_elt := 2, rot_alg := Rotation.sequential,
    watchers := [], limits := defaultLimits,
    hasCtx := true, configured := true, log := [] }

/-- Claim C2 is false as stated: a Get on empty `alive` with two upstreams
does perform the mass restore (both upstreams end up alive), yet returns
none — Sequential keeps the pre-restore cursor `cur_elt = 2`, which is out
of range for the freshly restored two-element `alive`, so the dispatch
reports end-of-iteration instead of a pick. -/
theorem c2_counterexample :
    c2St.alive = [] ∧ c2St.ups ≠ [] ∧
    (rspamd_upstream_get c2St Rotation.undef false 0 0).1 = none ∧
    (rspamd_upstream_get c2St Rotation.undef false 0 0).2.alive =
      List.range c2St.ups.length := by
  decide

/-- Two upstreams, empty `alive`, Sequential rotation with cursor 0, for
the C2 witness. -/
def c2WSt : UList :=
  { ups := [defaultUpstream, defaultUpstream],
    alive := [], cur_elt := 0, rot_alg := Rotation.sequential,
    watchers := [⟨true, true, true, true⟩], limits := defaultLimits,
    hasCtx := true, configured := true, log := [] }

/-- Witness for C2 (amended) at concrete inputs: a Get on two upstreams
with empty `alive` and in-range Sequential cursor restores both (ONLINE
twice, timers off) and returns a pick. -/
theorem c2_witness :
    (restoreAllUpstreams c2WSt).alive = List.range c2WSt.ups.length ∧
    (∀ j, j < c2WSt.ups.length → ((restoreAllUpstreams c2WSt).upAt j).timer = none) ∧
    (restoreAllUpstreams c2WSt).log = c2WSt.log ++
      (List.range c2WSt.ups.length).flatMap (fun j =>
        (c2WSt.watchers.filter (fun w => w.wmatch WEvent.online)).map
          (fun _ => UEvent.watch j WEvent.online ((c2WSt.upAt j).errors))) ∧
    (c2WSt.ups = [] → (rspamd_upstream_get c2WSt Rotation.undef false 0 0).1 = none) ∧
    (c2WSt.ups ≠ [] → (rspamd_upstream_get c2WSt Rotation.undef false 0 0).1.isSome) :=
  c2_amended c2WSt Rotation.undef false 0 0 rfl (by decide) (by decide) (by decide)
